import Mathlib

/-!
Verification development for the rapidflow-backend job execution engine.

The definitions below are a shallow embedding of the Go sources:
  - `internal/worker/worker.go` (the executor `RunJobWithContext`, the step
    loop, the runnables/deployments phase, the queue `StartQueue`),
  - the CLI `stopPipeline` sweep,
  - `internal/providers/providers.go` (`CreateZipArchive`) and the worker's
    `extractTar`/`handleArtifacts`.

External effects (docker execs, git, the SQL store) are modelled by explicit
oracles: every exec's exit code and streamed lines are inputs, and every store
write is recorded as an event in an output trace.
-/

namespace Rapidflow

/-- Job / step / runnable / deployment status strings of the schema. -/
inductive Status
  | pending
  | running
  | success
  | failed
  | cancelled
  | stopped
deriving DecidableEq, Repr

/-- Terminal job statuses (spec section 3). -/
def Status.isTerminal : Status → Bool
  | .success | .failed | .cancelled | .stopped => true
  | _ => false

/-- A row of the `files` table joined to its step (name, content). -/
structure FileRow where
  name : String
  content : String
deriving DecidableEq, Repr

/-- A row of the `steps` table as the loop reads it (ordered by order_num). -/
structure StepRow where
  typ : String
  content : String
  files : List FileRow
deriving DecidableEq, Repr

/-- Oracle for one step's container execs: per-file exit-ok of the
`echo '...' > name` exec, the streamed lines of the bash exec and its
exit code. -/
structure StepEnv where
  fileOk : List Bool
  bashLines : List String
  bashExit : Nat
deriving DecidableEq, Repr

def defaultStepEnv : StepEnv := { fileOk := [], bashLines := [], bashExit := 0 }

/-- The point at which the job's cancellation context is first observed
fired, if any: at one of the checks before the step loop (worker.go:500,
552, 658 all have the same effect), at the check at the top of step `k`
(worker.go:738), or during the output drain of step `k` after reading
line `j` (worker.go:808).  A named point that the run never reaches means
the cancellation is never observed. -/
inductive CancelObs
  | never
  | preSteps
  | beforeStep (k : Nat)
  | duringStep (k : Nat) (j : Nat)
deriving DecidableEq, Repr

/-- The persisted state of one `steps` row (status, output column). -/
structure StepCell where
  status : Status
  output : Option String
deriving DecidableEq, Repr

def pendCell : StepCell := { status := Status.pending, output := none }

/-- Step rows as inserted: all pending with NULL output. -/
def initCells (steps : List StepRow) : List StepCell :=
  steps.map (fun _ => pendCell)

/-- A write against the `steps` table. -/
inductive StepWrite
  /-- `UPDATE steps SET status = ? WHERE id = ?` -/
  | setStatus (i : Nat) (s : Status)
  /-- `UPDATE steps SET status = ?, output = ? WHERE id = ?` -/
  | setStatusOutput (i : Nat) (s : Status) (out : String)
  /-- `UPDATE steps SET status = 'cancelled' WHERE job_id = ? AND status IN ('pending','running')` -/
  | sweepCancel
deriving DecidableEq, Repr

/-- Store writes and resource effects of the executor, in program order. -/
inductive Ev
  /-- `UPDATE jobs SET status = ?[, finished_at = CURRENT_TIMESTAMP]`;
  `fin` records whether the write stamps finished_at (the running write
  stamps started_at instead). -/
  | jobWrite (s : Status) (fin : Bool)
  /-- `os.MkdirAll` of the clone dir `{tmp}/rapidflow-repo-{jobID}` (worker.go:413). -/
  | mkdirRepoTemp (jobId : Nat)
  /-- `UPDATE jobs SET temp_dir = ?` (worker.go:421, temporary jobs only). -/
  | setTempDir (jobId : Nat)
  /-- `UPDATE jobs SET language = ?` (worker.go:467). -/
  | setLanguage (l : String)
  /-- `UPDATE jobs SET version = ?` (worker.go:475). -/
  | setVersion (v : String)
  /-- `UPDATE jobs SET container_id = ?` (worker.go:585). -/
  | setContainerId (cid : String)
  /-- a write against the steps table (step loop). -/
  | stepW (w : StepWrite)
  /-- `ContainerRemove(force)` of the job's build container (worker.go:596 defer). -/
  | removeContainer (cid : String)
  /-- `os.MkdirAll` of the artifacts dir `/tmp/rapidflow-job-{jobID}` (worker.go:874). -/
  | mkdirArtifacts (jobId : Nat)
  /-- `os.RemoveAll` of the artifacts dir (worker.go:877 defer). -/
  | removeDirArtifacts (jobId : Nat)
  /-- `os.RemoveAll` of the clone dir — never issued by the executor;
  present so its absence is expressible. -/
  | removeDirRepoTemp (jobId : Nat)
deriving DecidableEq, Repr

/-- The job-status writes contained in an event trace, in order. -/
def jobWritesOf (evs : List Ev) : List (Status × Bool) :=
  evs.filterMap (fun e => match e with
    | Ev.jobWrite s f => some (s, f)
    | _ => none)

/-- How the step loop (and with it `RunJobWithContext`) ended. -/
inductive RunResult
  | ok
  | cancelled
  | stepFailed
deriving DecidableEq, Repr

/-- Result of the step loop: its event trace, the final steps table, and
how it returned. -/
structure LoopOut where
  events : List Ev
  cells : List StepCell
  res : RunResult
deriving DecidableEq, Repr

/-- `UPDATE steps SET status='cancelled' WHERE status IN ('pending','running')`
applied to the in-memory view of the steps table. -/
def cancelSweep (cells : List StepCell) : List StepCell :=
  cells.map (fun c => match c.status with
    | Status.pending => { c with status := Status.cancelled }
    | Status.running => { c with status := Status.cancelled }
    | _ => c)

/-- The captured output buffer of an exec: each streamed line followed by a
newline (worker.go:805). -/
def linesOut (lines : List String) : String :=
  String.join (lines.map (fun l => l ++ "\n"))

/-- Whether some file-materialization exec of the step failed: file `i`
failed iff its oracle entry is `false` (worker.go:779). -/
def fileFail (nFiles : Nat) (fileOk : List Bool) : Bool :=
  (List.range nFiles).any (fun i => !(fileOk.getD i true))

/-- The step-table writes of the file-materialization loop: each failing
`echo '{content}' > {name}` exec writes status failed with the canned
output and `continue`s with the next file (worker.go:779-783). -/
def fileWrites (idx : Nat) (nFiles : Nat) (fileOk : List Bool) : List StepWrite :=
  (List.range nFiles).filterMap (fun i =>
    if fileOk.getD i true then none
    else some (StepWrite.setStatusOutput idx Status.failed "Failed to create file"))

/-- Whether `cancel` names a poll inside step `idx`'s output drain that the
drain actually reaches (one check per streamed line, worker.go:808). -/
def isDuringStep (cancel : CancelObs) (idx : Nat) (nLines : Nat) : Bool :=
  match cancel with
  | CancelObs.duringStep k j => k = idx && j < nLines
  | _ => false

/-- The oracle of the step currently at the head of the remaining list. -/
def curEnv (envs : List StepEnv) : StepEnv := envs.headD defaultStepEnv

/-- The steps table after one step's `running` write (worker.go:748, a
status-only update) and its file-materialization loop (worker.go:759-784):
when some file exec failed, the cell ends failed with the canned output. -/
def afterFilesCells (cells : List StepCell) (idx : Nat) (nFiles : Nat)
    (fileOk : List Bool) : List StepCell :=
  let c1 := cells.set idx { status := Status.running, output := (cells.getD idx pendCell).output }
  if fileFail nFiles fileOk then
    c1.set idx { status := Status.failed, output := some "Failed to create file" }
  else c1

/-- The step-table writes issued before a step's bash exec: the `running`
write followed by the canned failure write of each failing file exec. -/
def stepHeadEvents (idx : Nat) (nFiles : Nat) (fileOk : List Bool) : List Ev :=
  Ev.stepW (StepWrite.setStatus idx Status.running) :: (fileWrites idx nFiles fileOk).map Ev.stepW

/-- The step loop of `RunJobWithContext` (worker.go:736-839), starting at
step index `idx` over the remaining `steps` with per-step oracles `envs`.
`cells` is the current steps table (absolute indexing). -/
def runStepsFrom (cells : List StepCell) (idx : Nat) (steps : List StepRow)
    (envs : List StepEnv) (cancel : CancelObs) : LoopOut :=
  match steps with
  | [] => { events := [], cells := cells, res := RunResult.ok }
  | st :: rest =>
    -- cancellation check at the top of the loop (worker.go:738-744)
    if cancel = CancelObs.beforeStep idx then
      { events := [Ev.jobWrite Status.cancelled true, Ev.stepW StepWrite.sweepCancel],
        cells := cancelSweep cells,
        res := RunResult.cancelled }
    else
      let env := curEnv envs
      let c2 := afterFilesCells cells idx st.files.length env.fileOk
      let evHead := stepHeadEvents idx st.files.length env.fileOk
      if st.typ = "bash" then
        -- cancellation check while draining the exec output (worker.go:807-814)
        if isDuringStep cancel idx env.bashLines.length then
          { events := evHead ++ [Ev.jobWrite Status.cancelled true, Ev.stepW StepWrite.sweepCancel],
            cells := cancelSweep c2,
            res := RunResult.cancelled }
        else if env.bashExit = 0 then
          let c3 := c2.set idx { status := Status.success, output := some (linesOut env.bashLines) }
          let r2 := runStepsFrom c3 (idx + 1) rest envs.tail cancel
          { events :=
              evHead ++ [Ev.stepW (StepWrite.setStatusOutput idx Status.success (linesOut env.bashLines))]
                ++ r2.events,
            cells := r2.cells, res := r2.res }
        else
          -- step failed: mark job failed and stop (worker.go:834-837)
          let c3 := c2.set idx { status := Status.failed, output := some (linesOut env.bashLines) }
          { events :=
              evHead ++ [Ev.stepW (StepWrite.setStatusOutput idx Status.failed (linesOut env.bashLines)),
                Ev.jobWrite Status.failed true],
            cells := c3, res := RunResult.stepFailed }
      else
        -- non-bash step types run nothing (worker.go:786)
        let r2 := runStepsFrom c2 (idx + 1) rest envs.tail cancel
        { events := evHead ++ r2.events, cells := r2.cells, res := r2.res }

/-- The whole step loop over freshly inserted step rows. -/
def runLoop (steps : List StepRow) (envs : List StepEnv) (cancel : CancelObs) : LoopOut :=
  runStepsFrom (initCells steps) 0 steps envs cancel

/-! ## Runnables and deployments phase (worker.go:856-1385) -/

/-- Outcome of the artifact producer dispatch of `processRunnable`
(worker.go:910-921): `success` carries the produced artifact handle,
`failure` the error text (config-parse errors, unknown types and the
`handleXxx` producers all surface here). -/
inductive ProdResult
  | success (artifact : String)
  | failure (errMsg : String)
deriving DecidableEq, Repr

/-- Oracle for one deployment row: whether the provider lookup succeeds,
whether `provider.Deploy` succeeds, and the error text otherwise. -/
structure DeployCase where
  found : Bool
  deployOk : Bool
  errMsg : String
deriving DecidableEq, Repr

/-- One pending `runnables` row together with the oracle for its producer
and its pending deployments. -/
structure RunnableCase where
  prod : ProdResult
  deps : List DeployCase
deriving DecidableEq, Repr

/-- Store writes and provider calls of the runnables phase, indexed by
runnable position `i` and deployment position `j`. -/
inductive REv
  /-- `UPDATE runnables SET status = ?[, output = ?]` -/
  | setRunnableStatus (i : Nat) (s : Status) (out : Option String)
  /-- `UPDATE runnables SET artifact_url = ?, status = 'success'` (worker.go:928). -/
  | setRunnableSuccess (i : Nat) (url : String)
  /-- `provider.Deploy(ctx, runnable, deployment, artifactPath)` (worker.go:1379). -/
  | deployCall (i : Nat) (j : Nat)
  /-- `UPDATE deployments SET status = ?[, output = ?]` -/
  | setDeploymentStatus (i : Nat) (j : Nat) (s : Status) (out : Option String)
deriving DecidableEq, Repr

/-- `processDeployments`/`processDeployment` over the pending deployments of
runnable `i`, starting at deployment position `j` (worker.go:1342-1385):
a provider-lookup miss or a `Deploy` error marks that deployment failed
with the error text and continues with the next one. -/
def processDeployments (i : Nat) (j : Nat) (ds : List DeployCase) : List REv :=
  match ds with
  | [] => []
  | d :: rest =>
    (if !d.found then
       [REv.setDeploymentStatus i j Status.failed (some d.errMsg)]
     else if d.deployOk then
       [REv.deployCall i j, REv.setDeploymentStatus i j Status.success none]
     else
       [REv.deployCall i j, REv.setDeploymentStatus i j Status.failed (some d.errMsg)])
    ++ processDeployments i (j + 1) rest

/-- `processRunnable` (worker.go:893-942): mark running, run the producer;
on success persist artifact_url + status success in one write and process
the deployments; a producer failure propagates to the caller. -/
def processRunnable (i : Nat) (c : RunnableCase) : List REv :=
  REv.setRunnableStatus i Status.running none ::
  match c.prod with
  | ProdResult.failure _ => []
  | ProdResult.success url =>
      REv.setRunnableSuccess i url :: processDeployments i 0 c.deps

/-- The loop of `processRunnables` (worker.go:880-887) from runnable
position `i`: a failed `processRunnable` marks the runnable failed with
the error text and continues with the next runnable. -/
def processRunnablesFrom (i : Nat) (cs : List RunnableCase) : List REv :=
  match cs with
  | [] => []
  | c :: rest =>
    (processRunnable i c ++
      match c.prod with
      | ProdResult.failure e => [REv.setRunnableStatus i Status.failed (some e)]
      | ProdResult.success _ => [])
    ++ processRunnablesFrom (i + 1) rest

/-- The runnables phase over the job's pending runnables. -/
def processRunnables (cs : List RunnableCase) : List REv :=
  processRunnablesFrom 0 cs

/-! ## The executor `RunJobWithContext` (worker.go:372-854) -/

/-- The `jobs` row fields `RunJobWithContext` reads.  Optional string
columns are `Option String` exactly as the Go struct holds pointers. -/
structure JobRow where
  id : Nat
  cancelled : Bool
  temporary : Bool
  repoURL : Option String
  folder : Option String
  branch : Option String
  language : Option String
  version : Option String
  repoName : Option String
deriving DecidableEq, Repr

/-- Detected `(language, version)` pair returned by
`detectLanguageAndVersion`. -/
structure LangInfo where
  language : String
  version : String
deriving DecidableEq, Repr

/-- Oracle for the infrastructure calls of one job run: each flag is the
success of the corresponding external call. -/
structure Infra where
  mkdirOk : Bool
  cloneOk : Bool
  detected : LangInfo
  pullOk : Bool
  fallbackPullOk : Bool
  createOk : Bool
  containerId : String
  startOk : Bool
  installScriptPresent : Bool
  installOk : Bool
  cloneInContainerOk : Bool
  checkoutOk : Bool
deriving DecidableEq, Repr

/-- A nil-or-empty optional string column (the Go code tests
`p == nil || *p == ""`). -/
def strOptEmpty (o : Option String) : Bool :=
  match o with
  | none => true
  | some s => s = ""

/-- Source acquisition (worker.go:410-449): clone into the temp dir when
`repo_url` is set (recording the dir on the job row for temporary jobs),
else use `folder`, else fail.  Returns the emitted events and whether the
stage succeeded. -/
def acquireStage (j : JobRow) (infra : Infra) : List Ev × Bool :=
  match j.repoURL with
  | some u =>
    if u = "" then
      (match j.folder with
       | some f => if f = "" then ([], false) else ([], true)
       | none => ([], false))
    else if !infra.mkdirOk then ([], false)
    else
      let e1 := [Ev.mkdirRepoTemp j.id]
      let e2 := if j.temporary then e1 ++ [Ev.setTempDir j.id] else e1
      (e2, infra.cloneOk)
  | none =>
    match j.folder with
    | some f => if f = "" then ([], false) else ([], true)
    | none => ([], false)

/-- Language back-fill (worker.go:451-483): when language or version is
missing on the job row the detector result is written back for whichever
of the two was missing. -/
def detectStage (j : JobRow) (infra : Infra) : List Ev :=
  if strOptEmpty j.language || strOptEmpty j.version then
    (if strOptEmpty j.language then [Ev.setLanguage infra.detected.language] else [])
    ++ (if strOptEmpty j.version then [Ev.setVersion infra.detected.version] else [])
  else []

/-- Result of one executor run: the job/step event trace, the runnables
phase trace, the final steps table, and whether the function returned
without error. -/
structure RunOut where
  events : List Ev
  rEvents : List REv
  cells : List StepCell
  ok : Bool
deriving DecidableEq, Repr

/-- The deferred `ContainerRemove` registered for non-temporary jobs right
after container creation (worker.go:592-597): it appends the removal to
every exit path that runs after it. -/
def withDeferredRemove (temporary : Bool) (cid : String) (o : RunOut) : RunOut :=
  if temporary then o
  else { o with events := o.events ++ [Ev.removeContainer cid] }

/-- `RunJobWithContext` (worker.go:372-854) as a function of the job row,
the infrastructure oracle, the step rows with their exec oracles, the
pending runnables with their oracles, and the cancellation observation
point. -/
def RunJobWithContext (j : JobRow) (infra : Infra) (steps : List StepRow)
    (envs : List StepEnv) (cs : List RunnableCase) (cancel : CancelObs) : RunOut :=
  -- preflight: a job already flagged cancelled returns nil before any write
  -- (worker.go:390-393)
  if j.cancelled then
    { events := [], rEvents := [], cells := initCells steps, ok := true }
  else
  -- `UPDATE jobs SET status = 'running', started_at = ...` (worker.go:396)
  let evs0 : List Ev := [Ev.jobWrite Status.running false]
  let acq := acquireStage j infra
  if !acq.2 then
    { events := evs0 ++ acq.1, rEvents := [], cells := initCells steps, ok := false }
  else
  let evs1 := evs0 ++ acq.1 ++ detectStage j infra
  -- cancellation checks before/after the image pull and during the install
  -- drain (worker.go:500, 552, 658) all settle the job to cancelled without
  -- touching the steps table
  if cancel = CancelObs.preSteps then
    { events := evs1 ++ [Ev.jobWrite Status.cancelled true], rEvents := [],
      cells := initCells steps, ok := false }
  else
  -- image pull with one fallback to ubuntu:latest (worker.go:526-548)
  let fallback := !infra.pullOk
  if fallback && !infra.fallbackPullOk then
    { events := evs1, rEvents := [], cells := initCells steps, ok := false }
  else
  -- container create + container_id write (worker.go:572-588)
  if !infra.createOk then
    { events := evs1, rEvents := [], cells := initCells steps, ok := false }
  else
  let evs2 := evs1 ++ [Ev.setContainerId infra.containerId]
  -- non-temporary jobs register a deferred force-remove of the container
  -- that runs on every later exit path (worker.go:592-597)
  let fin : RunOut → RunOut := withDeferredRemove j.temporary infra.containerId
  if !infra.startOk then
    fin { events := evs2, rEvents := [], cells := initCells steps, ok := false }
  else
  -- fallback install script (worker.go:606-676): a failing script is
  -- terminal, a missing one is only a warning
  if fallback && infra.installScriptPresent && !infra.installOk then
    fin { events := evs2, rEvents := [], cells := initCells steps, ok := false }
  else
  -- in-container clone + checkout when repo_name is set (worker.go:677-726)
  if j.repoName.isSome
      && !(infra.cloneInContainerOk && (strOptEmpty j.branch || infra.checkoutOk)) then
    fin { events := evs2, rEvents := [], cells := initCells steps, ok := false }
  else
  let lo := runLoop steps envs cancel
  let evs3 := evs2 ++ lo.events
  if lo.res ≠ RunResult.ok then
    fin { events := evs3, rEvents := [], cells := lo.cells, ok := false }
  else
  -- `UPDATE jobs SET status = 'success', finished_at = ...` (worker.go:841)
  let evs4 := evs3 ++ [Ev.jobWrite Status.success true]
  -- runnables phase; its error is only logged (worker.go:846-851), and its
  -- temp dir is created and defer-removed only when runnables exist
  -- (worker.go:865-877)
  if cs.isEmpty then
    fin { events := evs4, rEvents := [], cells := lo.cells, ok := true }
  else
    fin { events := evs4 ++ [Ev.mkdirArtifacts j.id, Ev.removeDirArtifacts j.id],
          rEvents := processRunnables cs, cells := lo.cells, ok := true }

/-! ## The dispatcher `StartQueue` (worker.go:1387-1423) -/

/-- The job-status writes seen by the store for one job dispatched by
`StartQueue`: the executor's own writes, followed by the dispatcher's
best-effort `UPDATE jobs SET status='failed', finished_at=...` whenever
`RunJob` returned an error (worker.go:1414-1420). -/
def queueJobWrites (j : JobRow) (infra : Infra) (steps : List StepRow)
    (envs : List StepEnv) (cs : List RunnableCase) (cancel : CancelObs) :
    List (Status × Bool) :=
  let o := RunJobWithContext j infra steps envs cs cancel
  jobWritesOf o.events ++ (if o.ok then [] else [(Status.failed, true)])

/-- The job's status after the dispatcher finished with it: the last
status written, `pending` if nothing was written. -/
def queueFinalStatus (j : JobRow) (infra : Infra) (steps : List StepRow)
    (envs : List StepEnv) (cs : List RunnableCase) (cancel : CancelObs) : Status :=
  ((queueJobWrites j infra steps envs cs cancel).getLast?).elim Status.pending Prod.fst

/-! ## The `stop-pipeline` sweep (CLI `stopPipeline`) -/

/-- A `runnables` row as `stopPipeline` reads it back: only the
`container_name` field of the stored config JSON matters to the sweep. -/
structure RunnableDb where
  configContainerName : String
deriving DecidableEq, Repr

/-- A `jobs` row as `stopPipeline` reads it, with its runnables joined. -/
structure JobDb where
  id : Nat
  status : Status
  tempDir : Option String
  containerId : Option String
  runnables : List RunnableDb
deriving DecidableEq, Repr

/-- External effects of the sweep, in program order. -/
inductive SweepEv
  /-- `w.CancelJob(job.ID)` -/
  | cancelJob (id : Nat)
  /-- `w.RemoveContainerByName(name)` -/
  | removeByName (n : String)
  /-- `ContainerRemove(force)` by id inside `CleanupJobResources`. -/
  | removeContainer (cid : String)
  /-- `os.RemoveAll(tempDir)` inside `CleanupJobResources`. -/
  | removeDirPath (d : String)
  /-- `UPDATE jobs SET status = ?, finished_at = CURRENT_TIMESTAMP`. -/
  | setJobStatus (id : Nat) (s : Status) (fin : Bool)
deriving DecidableEq, Repr

/-- `CleanupJobResources` (worker.go:344-366): remove the main container by
id and the recorded temp directory, each only when non-empty. -/
def CleanupJobResources (containerId : String) (tempDir : String) : List SweepEv :=
  (if containerId = "" then [] else [SweepEv.removeContainer containerId])
  ++ (if tempDir = "" then [] else [SweepEv.removeDirPath tempDir])

/-- One iteration of the `stopPipeline` job loop: cancel the running
executor, remove each runnable container whose stored config carries a
non-empty `container_name`, clean up the main container and temp dir, and
move the job to `stopped`. -/
def runnableRemovals (rs : List RunnableDb) : List SweepEv :=
  rs.foldr (fun r acc =>
    (if r.configContainerName = "" then [] else [SweepEv.removeByName r.configContainerName])
    ++ acc) []

def stopPipelineJob (j : JobDb) : List SweepEv :=
  [SweepEv.cancelJob j.id]
  ++ runnableRemovals j.runnables
  ++ CleanupJobResources ((j.containerId).getD "") ((j.tempDir).getD "")
  ++ [SweepEv.setJobStatus j.id Status.stopped true]

/-- `stopPipeline`: the loop over every job of the pipeline. -/
def stopPipeline (jobs : List JobDb) : List SweepEv :=
  jobs.flatMap stopPipelineJob

/-- The container name `handleDockerContainer` starts the runnable
container under (worker.go:1154-1158): the configured `container_name`,
or `rapidflow-run-{jobID}-{name}` when it is empty. -/
def chosenContainerName (cfgName : String) (jobId : Nat) (runnableName : String) : String :=
  if cfgName = "" then "rapidflow-run-" ++ toString jobId ++ "-" ++ runnableName
  else cfgName

/-! ## Artifact packaging: `extractTar`, `CreateZipArchive`, `handleArtifacts` -/

/-- A regular file inside the tar stream `CopyFromContainer` returns
(path components relative to the stream root, content). -/
structure TarFile where
  path : List String
  content : String
deriving DecidableEq, Repr

/-- An entry of the host filesystem: a directory or a regular file, each
identified by its absolute path components. -/
inductive FsEntry
  | dir (path : List String)
  | file (path : List String) (content : String)
deriving DecidableEq, Repr

/-- The host filesystem as a list of entries. -/
abbrev FS := List FsEntry

/-- `extractTar` (worker.go:1315-1340): creates the destination directory,
copies the raw tar stream into `{dst}/temp.tar`, and defer-removes that
temp file — it never unpacks the entries, so the net filesystem effect is
only the created directory. -/
def extractTar (src : List TarFile) (fs : FS) (dst : List String) : FS :=
  -- the `src` entries are dumped into temp.tar and deleted with it
  let _ := src
  fs ++ [FsEntry.dir dst]

/-- `strings.HasPrefix(name, ".")`: whether a file name begins with a
dot. -/
def startsWithDot (s : String) : Bool :=
  match s.data with
  | [] => false
  | c :: _ => c = '.'

/-- `CreateZipArchive` (providers.go:275-317): walk `sourceDir`, skip
directories and entries whose base name begins with `.`, and store every
remaining file under its path relative to `sourceDir`.  Returns the zip's
entry list (relative path, content). -/
def CreateZipArchive (fs : FS) (sourceDir : List String) : List (List String × String) :=
  fs.filterMap (fun e => match e with
    | FsEntry.dir _ => none
    | FsEntry.file p c =>
      if sourceDir.isPrefixOf p && !(startsWithDot (p.getLastD "")) then
        some (p.drop sourceDir.length, c)
      else none)

/-- Result of `handleArtifacts`: the filesystem afterwards, the returned
artifact path, and the zip's entries. -/
structure ArtifactsOut where
  fs : FS
  zipPath : List String
  zipEntries : List (List String × String)
deriving DecidableEq, Repr

/-- `handleArtifacts` (worker.go:1277-1294): copy `/workspace` out of the
container via `copyFromContainer`/`extractTar` into `{tempDir}/workspace`,
then zip that directory to `{tempDir}/{name}-artifacts.zip` and return the
zip path.  `tar` is the stream `CopyFromContainer` produced for
`/workspace`. -/
def handleArtifacts (fs : FS) (tar : List TarFile) (jobId : Nat) (name : String) :
    ArtifactsOut :=
  let tempDir := ["tmp", "rapidflow-job-" ++ toString jobId]
  let workspaceDir := tempDir ++ ["workspace"]
  let fs1 := extractTar tar fs workspaceDir
  let zipPath := tempDir ++ [name ++ "-artifacts.zip"]
  { fs := fs1 ++ [FsEntry.file zipPath ""],
    zipPath := zipPath,
    zipEntries := CreateZipArchive fs1 workspaceDir }

/-- `handleServerless` (worker.go:1297-1300) delegates to
`handleArtifacts` unchanged. -/
def handleServerless (fs : FS) (tar : List TarFile) (jobId : Nat) (name : String) :
    ArtifactsOut :=
  handleArtifacts fs tar jobId name

/-- What the claim says `handleArtifacts` produces, written from the spec
sentence: the copied tree materialized under `{tempDir}/workspace` and a
zip holding every regular file of the tar except names beginning with
`.`. -/
def claimedArtifactsZipEntries (tar : List TarFile) : List (List String × String) :=
  tar.filterMap (fun f =>
    if startsWithDot (f.path.getLastD "") then none else some (f.path, f.content))

/-! ## Helper lemmas -/

/-- A default step row for `getD`-style indexing. -/
def dStep : StepRow := { typ := "", content := "", files := [] }

theorem getD_set_self {α : Type} (l : List α) (i : Nat) (a d : α) (h : i < l.length) :
    (l.set i a).getD i d = a := by
  induction l generalizing i with
  | nil => simp at h
  | cons x xs ih =>
    cases i with
    | zero => simp [List.set, List.getD]
    | succ n =>
      simp only [List.set, List.getD_cons_succ]
      exact ih n (by simpa using h)

theorem getD_set_ne {α : Type} (l : List α) (i j : Nat) (a d : α) (h : i ≠ j) :
    (l.set i a).getD j d = l.getD j d := by
  induction l generalizing i j with
  | nil => simp [List.set]
  | cons x xs ih =>
    cases i with
    | zero =>
      cases j with
      | zero => exact absurd rfl h
      | succ m => simp [List.set, List.getD_cons_succ]
    | succ n =>
      cases j with
      | zero => simp [List.set, List.getD_cons_zero]
      | succ m =>
        simp only [List.set, List.getD_cons_succ]
        exact ih n m (fun hnm => h (by rw [hnm]))

theorem initCells_getD (steps : List StepRow) (i : Nat) :
    (initCells steps).getD i pendCell = pendCell := by
  induction steps generalizing i with
  | nil => simp [initCells, List.getD]
  | cons s rest ih =>
    cases i with
    | zero => simp [initCells]
    | succ n => simp [initCells, List.getD_cons_succ]

theorem initCells_length (steps : List StepRow) :
    (initCells steps).length = steps.length := by
  simp [initCells]

theorem jobWritesOf_append (a b : List Ev) :
    jobWritesOf (a ++ b) = jobWritesOf a ++ jobWritesOf b := by
  simp [jobWritesOf, List.filterMap_append]

theorem jobWritesOf_stepW_map (l : List StepWrite) :
    jobWritesOf (l.map Ev.stepW) = [] := by
  induction l with
  | nil => rfl
  | cons w rest ih => simp [jobWritesOf, List.filterMap_cons] at ih ⊢

@[simp] theorem jobWritesOf_nil : jobWritesOf [] = [] := rfl

theorem jobWritesOf_cons_stepW (w : StepWrite) (l : List Ev) :
    jobWritesOf (Ev.stepW w :: l) = jobWritesOf l := by
  simp [jobWritesOf, List.filterMap_cons]

theorem jobWritesOf_cons_jobWrite (s : Status) (f : Bool) (l : List Ev) :
    jobWritesOf (Ev.jobWrite s f :: l) = (s, f) :: jobWritesOf l := by
  simp [jobWritesOf, List.filterMap_cons]

/-- Every cell the cancellation sweep leaves behind is non-pending and
non-running. -/
theorem cancelSweep_no_open (cells : List StepCell) :
    ∀ c ∈ cancelSweep cells, c.status ≠ Status.pending ∧ c.status ≠ Status.running := by
  intro c hc
  simp only [cancelSweep, List.mem_map] at hc
  obtain ⟨c0, _, rfl⟩ := hc
  cases h : c0.status <;> simp [h]

/-- The file-materialization writes are all canned failure writes. -/
theorem fileWrites_shape (idx n : Nat) (fileOk : List Bool) :
    ∀ w ∈ fileWrites idx n fileOk,
      w = StepWrite.setStatusOutput idx Status.failed "Failed to create file" := by
  intro w hw
  simp only [fileWrites, List.mem_filterMap] at hw
  obtain ⟨i, _, hi⟩ := hw
  split at hi
  · exact Option.noConfusion hi
  · exact (Option.some.inj hi).symm

theorem sweep_not_mem_fileWrites (idx n : Nat) (fileOk : List Bool) :
    StepWrite.sweepCancel ∉ fileWrites idx n fileOk := by
  intro h
  have := fileWrites_shape idx n fileOk _ h
  simp at this

/-- When some file exec failed, the canned failure write is among the
file-materialization writes. -/
theorem fileWrites_mem_of_fileFail (idx n : Nat) (fileOk : List Bool)
    (h : fileFail n fileOk = true) :
    StepWrite.setStatusOutput idx Status.failed "Failed to create file" ∈
      fileWrites idx n fileOk := by
  unfold fileFail at h
  rw [List.any_eq_true] at h
  obtain ⟨i, hi, hbad⟩ := h
  rw [Bool.not_eq_true'] at hbad
  simp only [fileWrites, List.mem_filterMap]
  exact ⟨i, hi, by rw [hbad]; simp⟩

theorem sweep_not_mem_map_fileWrites (idx n : Nat) (fileOk : List Bool) :
    Ev.stepW StepWrite.sweepCancel ∉ (fileWrites idx n fileOk).map Ev.stepW := by
  intro h
  obtain ⟨w, hw, he⟩ := List.mem_map.mp h
  have := fileWrites_shape idx n fileOk w hw
  rw [this] at he
  exact Ev.noConfusion he (fun h2 => StepWrite.noConfusion h2)

theorem sweep_not_mem_stepHeadEvents (idx n : Nat) (fileOk : List Bool) :
    Ev.stepW StepWrite.sweepCancel ∉ stepHeadEvents idx n fileOk := by
  intro h
  rcases List.mem_cons.mp h with h1 | h1
  · exact Ev.noConfusion h1 (fun h2 => StepWrite.noConfusion h2)
  · exact sweep_not_mem_map_fileWrites idx n fileOk h1

theorem jobWritesOf_stepHeadEvents (idx n : Nat) (fileOk : List Bool) :
    jobWritesOf (stepHeadEvents idx n fileOk) = [] := by
  simp [stepHeadEvents, jobWritesOf_cons_stepW, jobWritesOf_stepW_map]

/-! ### Branch equations for `runStepsFrom` -/

theorem runStepsFrom_nil (cells : List StepCell) (idx : Nat) (envs : List StepEnv)
    (cancel : CancelObs) :
    runStepsFrom cells idx [] envs cancel = { events := [], cells := cells, res := RunResult.ok } :=
  rfl

theorem runStepsFrom_cancelAt (cells : List StepCell) (idx : Nat) (st : StepRow)
    (rest : List StepRow) (envs : List StepEnv) (cancel : CancelObs)
    (hc : cancel = CancelObs.beforeStep idx) :
    runStepsFrom cells idx (st :: rest) envs cancel =
      { events := [Ev.jobWrite Status.cancelled true, Ev.stepW StepWrite.sweepCancel],
        cells := cancelSweep cells, res := RunResult.cancelled } := by
  simp [runStepsFrom, hc]

theorem runStepsFrom_during (cells : List StepCell) (idx : Nat) (st : StepRow)
    (rest : List StepRow) (envs : List StepEnv) (cancel : CancelObs)
    (hc : cancel ≠ CancelObs.beforeStep idx) (hb : st.typ = "bash")
    (hd : isDuringStep cancel idx (curEnv envs).bashLines.length = true) :
    runStepsFrom cells idx (st :: rest) envs cancel =
      { events := stepHeadEvents idx st.files.length (curEnv envs).fileOk
          ++ [Ev.jobWrite Status.cancelled true, Ev.stepW StepWrite.sweepCancel],
        cells := cancelSweep (afterFilesCells cells idx st.files.length
          (curEnv envs).fileOk),
        res := RunResult.cancelled } := by
  simp [runStepsFrom, hc, hb, hd]

theorem runStepsFrom_bashOk (cells : List StepCell) (idx : Nat) (st : StepRow)
    (rest : List StepRow) (envs : List StepEnv) (cancel : CancelObs)
    (hc : cancel ≠ CancelObs.beforeStep idx) (hb : st.typ = "bash")
    (hd : isDuringStep cancel idx (curEnv envs).bashLines.length = false)
    (he : (curEnv envs).bashExit = 0) :
    runStepsFrom cells idx (st :: rest) envs cancel =
      (let r2 := runStepsFrom
          ((afterFilesCells cells idx st.files.length (curEnv envs).fileOk).set idx
            { status := Status.success, output := some (linesOut (curEnv envs).bashLines) })
          (idx + 1) rest envs.tail cancel
       { events := stepHeadEvents idx st.files.length (curEnv envs).fileOk
            ++ [Ev.stepW (StepWrite.setStatusOutput idx Status.success
                  (linesOut (curEnv envs).bashLines))]
            ++ r2.events,
         cells := r2.cells, res := r2.res }) := by
  simp [runStepsFrom, hc, hb, hd, he]

theorem runStepsFrom_bashFail (cells : List StepCell) (idx : Nat) (st : StepRow)
    (rest : List StepRow) (envs : List StepEnv) (cancel : CancelObs)
    (hc : cancel ≠ CancelObs.beforeStep idx) (hb : st.typ = "bash")
    (hd : isDuringStep cancel idx (curEnv envs).bashLines.length = false)
    (he : (curEnv envs).bashExit ≠ 0) :
    runStepsFrom cells idx (st :: rest) envs cancel =
      { events := stepHeadEvents idx st.files.length (curEnv envs).fileOk
          ++ [Ev.stepW (StepWrite.setStatusOutput idx Status.failed
                (linesOut (curEnv envs).bashLines)),
              Ev.jobWrite Status.failed true],
        cells := (afterFilesCells cells idx st.files.length (curEnv envs).fileOk).set idx
          { status := Status.failed, output := some (linesOut (curEnv envs).bashLines) },
        res := RunResult.stepFailed } := by
  simp [runStepsFrom, hc, hb, hd, he]

theorem runStepsFrom_nonbash (cells : List StepCell) (idx : Nat) (st : StepRow)
    (rest : List StepRow) (envs : List StepEnv) (cancel : CancelObs)
    (hc : cancel ≠ CancelObs.beforeStep idx) (hb : ¬ st.typ = "bash") :
    runStepsFrom cells idx (st :: rest) envs cancel =
      (let r2 := runStepsFrom
          (afterFilesCells cells idx st.files.length (curEnv envs).fileOk)
          (idx + 1) rest envs.tail cancel
       { events := stepHeadEvents idx st.files.length (curEnv envs).fileOk ++ r2.events,
         cells := r2.cells, res := r2.res }) := by
  simp [runStepsFrom, hc, hb]

theorem sweep_mem_head_append (idx n : Nat) (fileOk : List Bool) (a : List Ev) :
    (Ev.stepW StepWrite.sweepCancel ∈ stepHeadEvents idx n fileOk ++ a) ↔
      Ev.stepW StepWrite.sweepCancel ∈ a := by
  constructor
  · intro h
    rcases List.mem_append.mp h with hx | hx
    · exact absurd hx (sweep_not_mem_stepHeadEvents idx n fileOk)
    · exact hx
  · intro h
    exact List.mem_append.mpr (Or.inr h)

theorem sweep_mem_bashhead_append (idx n : Nat) (fileOk : List Bool) (s : Status)
    (out : String) (a : List Ev) :
    (Ev.stepW StepWrite.sweepCancel ∈
        (stepHeadEvents idx n fileOk ++ [Ev.stepW (StepWrite.setStatusOutput idx s out)]) ++ a) ↔
      Ev.stepW StepWrite.sweepCancel ∈ a := by
  constructor
  · intro h
    rcases List.mem_append.mp h with hx | hx
    · rcases List.mem_append.mp hx with hy | hy
      · exact absurd hy (sweep_not_mem_stepHeadEvents idx n fileOk)
      · rcases List.mem_cons.mp hy with hz | hz
        · exact Ev.noConfusion hz (fun h2 => StepWrite.noConfusion h2)
        · simp at hz
    · exact hx
  · intro h
    exact List.mem_append.mpr (Or.inr h)

/-- Characterization of the step loop by how it returned: the job-status
writes it issued, whether it issued the steps-table cancellation sweep,
and — on cancellation — that no step is left pending or running. -/
theorem runStepsFrom_spec (steps : List StepRow) :
    ∀ (envs : List StepEnv) (cells : List StepCell) (idx : Nat) (cancel : CancelObs),
    ((runStepsFrom cells idx steps envs cancel).res = RunResult.cancelled →
        jobWritesOf (runStepsFrom cells idx steps envs cancel).events = [(Status.cancelled, true)]
        ∧ Ev.stepW StepWrite.sweepCancel ∈ (runStepsFrom cells idx steps envs cancel).events
        ∧ ∀ c ∈ (runStepsFrom cells idx steps envs cancel).cells,
            c.status ≠ Status.pending ∧ c.status ≠ Status.running)
    ∧ ((runStepsFrom cells idx steps envs cancel).res = RunResult.ok →
        jobWritesOf (runStepsFrom cells idx steps envs cancel).events = []
        ∧ Ev.stepW StepWrite.sweepCancel ∉ (runStepsFrom cells idx steps envs cancel).events)
    ∧ ((runStepsFrom cells idx steps envs cancel).res = RunResult.stepFailed →
        jobWritesOf (runStepsFrom cells idx steps envs cancel).events = [(Status.failed, true)]
        ∧ Ev.stepW StepWrite.sweepCancel ∉ (runStepsFrom cells idx steps envs cancel).events) := by
  induction steps with
  | nil =>
    intro envs cells idx cancel
    rw [runStepsFrom_nil]
    refine ⟨?_, ?_, ?_⟩ <;> intro h <;> simp_all
  | cons st rest ih =>
    intro envs cells idx cancel
    by_cases hc : cancel = CancelObs.beforeStep idx
    · rw [runStepsFrom_cancelAt cells idx st rest envs cancel hc]
      refine ⟨?_, ?_, ?_⟩ <;> intro h
      · refine ⟨?_, ?_, cancelSweep_no_open cells⟩
        · simp [jobWritesOf_cons_jobWrite, jobWritesOf_cons_stepW]
        · simp
      · simp at h
      · simp at h
    · by_cases hb : st.typ = "bash"
      · by_cases hd : isDuringStep cancel idx (curEnv envs).bashLines.length
        · rw [runStepsFrom_during cells idx st rest envs cancel hc hb hd]
          refine ⟨?_, ?_, ?_⟩ <;> intro h
          · refine ⟨?_, ?_, cancelSweep_no_open _⟩
            · simp [jobWritesOf_append, jobWritesOf_stepHeadEvents,
                jobWritesOf_cons_jobWrite, jobWritesOf_cons_stepW]
            · simp
          · simp at h
          · simp at h
        · rw [Bool.not_eq_true] at hd
          by_cases he : (curEnv envs).bashExit = 0
          · rw [runStepsFrom_bashOk cells idx st rest envs cancel hc hb hd he]
            have hr := ih envs.tail
              ((afterFilesCells cells idx st.files.length (curEnv envs).fileOk).set idx
                { status := Status.success, output := some (linesOut (curEnv envs).bashLines) })
              (idx + 1) cancel
            simp only [List.append_assoc] at *
            refine ⟨?_, ?_, ?_⟩ <;> intro h <;>
              rw [show ((stepHeadEvents idx st.files.length (curEnv envs).fileOk ++
                  ([Ev.stepW (StepWrite.setStatusOutput idx Status.success
                    (linesOut (curEnv envs).bashLines))] ++
                  (runStepsFrom ((afterFilesCells cells idx st.files.length
                      (curEnv envs).fileOk).set idx
                    { status := Status.success,
                      output := some (linesOut (curEnv envs).bashLines) })
                    (idx + 1) rest envs.tail cancel).events))) =
                ((stepHeadEvents idx st.files.length (curEnv envs).fileOk ++
                  [Ev.stepW (StepWrite.setStatusOutput idx Status.success
                    (linesOut (curEnv envs).bashLines))]) ++
                  (runStepsFrom ((afterFilesCells cells idx st.files.length
                      (curEnv envs).fileOk).set idx
                    { status := Status.success,
                      output := some (linesOut (curEnv envs).bashLines) })
                    (idx + 1) rest envs.tail cancel).events) from by
                  rw [List.append_assoc]]
            · obtain ⟨h1, h2, h3⟩ := hr.1 h
              refine ⟨?_, ?_, h3⟩
              · rw [jobWritesOf_append, jobWritesOf_append, jobWritesOf_stepHeadEvents,
                  jobWritesOf_cons_stepW, jobWritesOf_nil, h1]
                rfl
              · exact (sweep_mem_bashhead_append _ _ _ _ _ _).mpr h2
            · obtain ⟨h1, h2⟩ := hr.2.1 h
              refine ⟨?_, ?_⟩
              · rw [jobWritesOf_append, jobWritesOf_append, jobWritesOf_stepHeadEvents,
                  jobWritesOf_cons_stepW, jobWritesOf_nil, h1]
                rfl
              · intro hmem
                exact h2 ((sweep_mem_bashhead_append _ _ _ _ _ _).mp hmem)
            · obtain ⟨h1, h2⟩ := hr.2.2 h
              refine ⟨?_, ?_⟩
              · rw [jobWritesOf_append, jobWritesOf_append, jobWritesOf_stepHeadEvents,
                  jobWritesOf_cons_stepW, jobWritesOf_nil, h1]
                rfl
              · intro hmem
                exact h2 ((sweep_mem_bashhead_append _ _ _ _ _ _).mp hmem)
          · rw [runStepsFrom_bashFail cells idx st rest envs cancel hc hb hd he]
            refine ⟨?_, ?_, ?_⟩ <;> intro h
            · simp at h
            · simp at h
            · refine ⟨?_, ?_⟩
              · simp [jobWritesOf_append, jobWritesOf_stepHeadEvents,
                  jobWritesOf_cons_jobWrite, jobWritesOf_cons_stepW]
              · intro hmem
                rcases List.mem_append.mp hmem with hx | hx
                · exact sweep_not_mem_stepHeadEvents _ _ _ hx
                · rcases List.mem_cons.mp hx with hx | hx
                  · exact Ev.noConfusion hx (fun h2 => StepWrite.noConfusion h2)
                  · rcases List.mem_cons.mp hx with hx | hx
                    · exact Ev.noConfusion hx
                    · simp at hx
      · rw [runStepsFrom_nonbash cells idx st rest envs cancel hc hb]
        have hr := ih envs.tail
          (afterFilesCells cells idx st.files.length (curEnv envs).fileOk)
          (idx + 1) cancel
        simp only []
        refine ⟨?_, ?_, ?_⟩ <;> intro h
        · obtain ⟨h1, h2, h3⟩ := hr.1 h
          refine ⟨?_, ?_, h3⟩
          · rw [jobWritesOf_append, jobWritesOf_stepHeadEvents, h1]
            rfl
          · exact (sweep_mem_head_append _ _ _ _).mpr h2
        · obtain ⟨h1, h2⟩ := hr.2.1 h
          refine ⟨?_, ?_⟩
          · rw [jobWritesOf_append, jobWritesOf_stepHeadEvents, h1]
            rfl
          · intro hmem
            exact h2 ((sweep_mem_head_append _ _ _ _).mp hmem)
        · obtain ⟨h1, h2⟩ := hr.2.2 h
          refine ⟨?_, ?_⟩
          · rw [jobWritesOf_append, jobWritesOf_stepHeadEvents, h1]
            rfl
          · intro hmem
            exact h2 ((sweep_mem_head_append _ _ _ _).mp hmem)

/-! ### Executor-level helper lemmas -/

theorem withDeferredRemove_ok (t : Bool) (cid : String) (o : RunOut) :
    (withDeferredRemove t cid o).ok = o.ok := by
  unfold withDeferredRemove
  split <;> rfl

theorem withDeferredRemove_cells (t : Bool) (cid : String) (o : RunOut) :
    (withDeferredRemove t cid o).cells = o.cells := by
  unfold withDeferredRemove
  split <;> rfl

theorem withDeferredRemove_rEvents (t : Bool) (cid : String) (o : RunOut) :
    (withDeferredRemove t cid o).rEvents = o.rEvents := by
  unfold withDeferredRemove
  split <;> rfl

theorem withDeferredRemove_jobWrites (t : Bool) (cid : String) (o : RunOut) :
    jobWritesOf (withDeferredRemove t cid o).events = jobWritesOf o.events := by
  unfold withDeferredRemove
  split
  · rfl
  · simp [jobWritesOf_append, jobWritesOf]

theorem withDeferredRemove_mem (t : Bool) (cid : String) (o : RunOut) (e : Ev) :
    e ∈ (withDeferredRemove t cid o).events ↔
      e ∈ o.events ∨ (t = false ∧ e = Ev.removeContainer cid) := by
  unfold withDeferredRemove
  split
  · rename_i ht
    simp [ht]
  · rename_i ht
    rw [Bool.not_eq_true] at ht
    simp [ht, List.mem_append]

theorem acquireStage_shape (j : JobRow) (infra : Infra) :
    ∀ e ∈ (acquireStage j infra).1, e = Ev.mkdirRepoTemp j.id ∨ e = Ev.setTempDir j.id := by
  intro e he
  unfold acquireStage at he
  rcases hru : j.repoURL with _ | u <;> rw [hru] at he
  · rcases hfo : j.folder with _ | f <;> rw [hfo] at he
    · simp at he
    · by_cases hf : f = "" <;> simp [hf] at he
  · by_cases hu : u = ""
    · rcases hfo : j.folder with _ | f <;> simp only [hu, if_true, ite_true, hfo] at he
      · simp at he
      · by_cases hf : f = "" <;> simp [hf] at he
    · by_cases hm : infra.mkdirOk
      · by_cases ht : j.temporary <;> simp [hu, hm, ht] at he <;> tauto
      · simp [hu, hm] at he

theorem jobWritesOf_acquireStage (j : JobRow) (infra : Infra) :
    jobWritesOf (acquireStage j infra).1 = [] := by
  unfold jobWritesOf
  rw [List.filterMap_eq_nil_iff]
  intro e he
  rcases acquireStage_shape j infra e he with h | h <;> rw [h]

theorem detectStage_shape (j : JobRow) (infra : Infra) :
    ∀ e ∈ detectStage j infra,
      e = Ev.setLanguage infra.detected.language ∨ e = Ev.setVersion infra.detected.version := by
  intro e he
  unfold detectStage at he
  by_cases h1 : strOptEmpty j.language <;> by_cases h2 : strOptEmpty j.version <;>
    simp [h1, h2] at he <;> tauto

theorem jobWritesOf_detectStage (j : JobRow) (infra : Infra) :
    jobWritesOf (detectStage j infra) = [] := by
  unfold jobWritesOf
  rw [List.filterMap_eq_nil_iff]
  intro e he
  rcases detectStage_shape j infra e he with h | h <;> rw [h]

/-- Every event the step loop emits is a steps-table write or a job-status
write. -/
theorem runStepsFrom_events_shape (steps : List StepRow) :
    ∀ (envs : List StepEnv) (cells : List StepCell) (idx : Nat) (cancel : CancelObs),
    ∀ e ∈ (runStepsFrom cells idx steps envs cancel).events,
      (∃ w, e = Ev.stepW w) ∨ (∃ s f, e = Ev.jobWrite s f) := by
  induction steps with
  | nil =>
    intro envs cells idx cancel e he
    rw [runStepsFrom_nil] at he
    simp at he
  | cons st rest ih =>
    intro envs cells idx cancel e he
    by_cases hc : cancel = CancelObs.beforeStep idx
    · rw [runStepsFrom_cancelAt cells idx st rest envs cancel hc] at he
      rcases List.mem_cons.mp he with h | h
      · exact Or.inr ⟨_, _, h⟩
      · rcases List.mem_cons.mp h with h2 | h2
        · exact Or.inl ⟨_, h2⟩
        · simp at h2
    · have hHead : ∀ x ∈ stepHeadEvents idx st.files.length (curEnv envs).fileOk,
          (∃ w, x = Ev.stepW w) ∨ (∃ s f, x = Ev.jobWrite s f) := by
        intro x hx
        rcases List.mem_cons.mp hx with h | h
        · exact Or.inl ⟨_, h⟩
        · obtain ⟨w, _, hw⟩ := List.mem_map.mp h
          exact Or.inl ⟨w, hw.symm⟩
      by_cases hb : st.typ = "bash"
      · by_cases hd : isDuringStep cancel idx (curEnv envs).bashLines.length
        · rw [runStepsFrom_during cells idx st rest envs cancel hc hb hd] at he
          rcases List.mem_append.mp he with h | h
          · exact hHead e h
          · rcases List.mem_cons.mp h with h2 | h2
            · exact Or.inr ⟨_, _, h2⟩
            · rcases List.mem_cons.mp h2 with h3 | h3
              · exact Or.inl ⟨_, h3⟩
              · simp at h3
        · rw [Bool.not_eq_true] at hd
          by_cases he0 : (curEnv envs).bashExit = 0
          · rw [runStepsFrom_bashOk cells idx st rest envs cancel hc hb hd he0] at he
            simp only [] at he
            rcases List.mem_append.mp he with h | h
            · rcases List.mem_append.mp h with h2 | h2
              · exact hHead e h2
              · rcases List.mem_cons.mp h2 with h3 | h3
                · exact Or.inl ⟨_, h3⟩
                · simp at h3
            · exact ih envs.tail _ (idx + 1) cancel e h
          · rw [runStepsFrom_bashFail cells idx st rest envs cancel hc hb hd he0] at he
            rcases List.mem_append.mp he with h | h
            · exact hHead e h
            · rcases List.mem_cons.mp h with h2 | h2
              · exact Or.inl ⟨_, h2⟩
              · rcases List.mem_cons.mp h2 with h3 | h3
                · exact Or.inr ⟨_, _, h3⟩
                · simp at h3
      · rw [runStepsFrom_nonbash cells idx st rest envs cancel hc hb] at he
        simp only [] at he
        rcases List.mem_append.mp he with h | h
        · exact hHead e h
        · exact ih envs.tail _ (idx + 1) cancel e h

/-! ### Branch equations for `RunJobWithContext` -/

theorem runJob_preflight (j : JobRow) (infra : Infra) (steps : List StepRow)
    (envs : List StepEnv) (cs : List RunnableCase) (cancel : CancelObs)
    (h0 : j.cancelled = true) :
    RunJobWithContext j infra steps envs cs cancel =
      { events := [], rEvents := [], cells := initCells steps, ok := true } := by
  simp [RunJobWithContext, h0]

theorem runJob_acqFail (j : JobRow) (infra : Infra) (steps : List StepRow)
    (envs : List StepEnv) (cs : List RunnableCase) (cancel : CancelObs)
    (h0 : j.cancelled = false) (h1 : (acquireStage j infra).2 = false) :
    RunJobWithContext j infra steps envs cs cancel =
      { events := Ev.jobWrite Status.running false :: (acquireStage j infra).1,
        rEvents := [], cells := initCells steps, ok := false } := by
  simp [RunJobWithContext, h0, h1]

theorem runJob_preSteps (j : JobRow) (infra : Infra) (steps : List StepRow)
    (envs : List StepEnv) (cs : List RunnableCase) (cancel : CancelObs)
    (h0 : j.cancelled = false) (h1 : (acquireStage j infra).2 = true)
    (h2 : cancel = CancelObs.preSteps) :
    RunJobWithContext j infra steps envs cs cancel =
      { events := Ev.jobWrite Status.running false :: ((acquireStage j infra).1
          ++ detectStage j infra ++ [Ev.jobWrite Status.cancelled true]),
        rEvents := [], cells := initCells steps, ok := false } := by
  simp [RunJobWithContext, h0, h1, h2]

theorem runJob_pullFail (j : JobRow) (infra : Infra) (steps : List StepRow)
    (envs : List StepEnv) (cs : List RunnableCase) (cancel : CancelObs)
    (h0 : j.cancelled = false) (h1 : (acquireStage j infra).2 = true)
    (h2 : cancel ≠ CancelObs.preSteps)
    (h3 : (!infra.pullOk && !infra.fallbackPullOk) = true) :
    RunJobWithContext j infra steps envs cs cancel =
      { events := Ev.jobWrite Status.running false :: ((acquireStage j infra).1
          ++ detectStage j infra),
        rEvents := [], cells := initCells steps, ok := false } := by
  simp [RunJobWithContext, h0, h1, h2, h3]

theorem runJob_createFail (j : JobRow) (infra : Infra) (steps : List StepRow)
    (envs : List StepEnv) (cs : List RunnableCase) (cancel : CancelObs)
    (h0 : j.cancelled = false) (h1 : (acquireStage j infra).2 = true)
    (h2 : cancel ≠ CancelObs.preSteps)
    (h3 : (!infra.pullOk && !infra.fallbackPullOk) = false)
    (h4 : infra.createOk = false) :
    RunJobWithContext j infra steps envs cs cancel =
      { events := Ev.jobWrite Status.running false :: ((acquireStage j infra).1
          ++ detectStage j infra),
        rEvents := [], cells := initCells steps, ok := false } := by
  simp [RunJobWithContext, h0, h1, h2, h3, h4]

theorem runJob_startFail (j : JobRow) (infra : Infra) (steps : List StepRow)
    (envs : List StepEnv) (cs : List RunnableCase) (cancel : CancelObs)
    (h0 : j.cancelled = false) (h1 : (acquireStage j infra).2 = true)
    (h2 : cancel ≠ CancelObs.preSteps)
    (h3 : (!infra.pullOk && !infra.fallbackPullOk) = false)
    (h4 : infra.createOk = true) (h5 : infra.startOk = false) :
    RunJobWithContext j infra steps envs cs cancel =
      withDeferredRemove j.temporary infra.containerId
        { events := Ev.jobWrite Status.running false :: ((acquireStage j infra).1
            ++ detectStage j infra ++ [Ev.setContainerId infra.containerId]),
          rEvents := [], cells := initCells steps, ok := false } := by
  simp [RunJobWithContext, h0, h1, h2, h3, h4, h5]

theorem runJob_installFail (j : JobRow) (infra : Infra) (steps : List StepRow)
    (envs : List StepEnv) (cs : List RunnableCase) (cancel : CancelObs)
    (h0 : j.cancelled = false) (h1 : (acquireStage j infra).2 = true)
    (h2 : cancel ≠ CancelObs.preSteps)
    (h3 : (!infra.pullOk && !infra.fallbackPullOk) = false)
    (h4 : infra.createOk = true) (h5 : infra.startOk = true)
    (h6 : (!infra.pullOk && infra.installScriptPresent && !infra.installOk) = true) :
    RunJobWithContext j infra steps envs cs cancel =
      withDeferredRemove j.temporary infra.containerId
        { events := Ev.jobWrite Status.running false :: ((acquireStage j infra).1
            ++ detectStage j infra ++ [Ev.setContainerId infra.containerId]),
          rEvents := [], cells := initCells steps, ok := false } := by
  simp [RunJobWithContext, h0, h1, h2, h3, h4, h5, h6]

theorem runJob_cloneFail (j : JobRow) (infra : Infra) (steps : List StepRow)
    (envs : List StepEnv) (cs : List RunnableCase) (cancel : CancelObs)
    (h0 : j.cancelled = false) (h1 : (acquireStage j infra).2 = true)
    (h2 : cancel ≠ CancelObs.preSteps)
    (h3 : (!infra.pullOk && !infra.fallbackPullOk) = false)
    (h4 : infra.createOk = true) (h5 : infra.startOk = true)
    (h6 : (!infra.pullOk && infra.installScriptPresent && !infra.installOk) = false)
    (h7 : (j.repoName.isSome
        && !(infra.cloneInContainerOk && (strOptEmpty j.branch || infra.checkoutOk))) = true) :
    RunJobWithContext j infra steps envs cs cancel =
      withDeferredRemove j.temporary infra.containerId
        { events := Ev.jobWrite Status.running false :: ((acquireStage j infra).1
            ++ detectStage j infra ++ [Ev.setContainerId infra.containerId]),
          rEvents := [], cells := initCells steps, ok := false } := by
  have h7' := h7
  rw [Bool.and_eq_true, Bool.not_eq_true'] at h7'
  obtain ⟨h7a, h7b⟩ := h7'
  simp [RunJobWithContext, h0, h1, h2, h3, h4, h5, h6, h7a, h7b]

theorem runJob_reachLoop (j : JobRow) (infra : Infra) (steps : List StepRow)
    (envs : List StepEnv) (cs : List RunnableCase) (cancel : CancelObs)
    (h0 : j.cancelled = false) (h1 : (acquireStage j infra).2 = true)
    (h2 : cancel ≠ CancelObs.preSteps)
    (h3 : (!infra.pullOk && !infra.fallbackPullOk) = false)
    (h4 : infra.createOk = true) (h5 : infra.startOk = true)
    (h6 : (!infra.pullOk && infra.installScriptPresent && !infra.installOk) = false)
    (h7 : (j.repoName.isSome
        && !(infra.cloneInContainerOk && (strOptEmpty j.branch || infra.checkoutOk))) = false) :
    RunJobWithContext j infra steps envs cs cancel =
      (if (runLoop steps envs cancel).res ≠ RunResult.ok then
        withDeferredRemove j.temporary infra.containerId
          { events := Ev.jobWrite Status.running false :: ((acquireStage j infra).1
              ++ detectStage j infra ++ [Ev.setContainerId infra.containerId]
              ++ (runLoop steps envs cancel).events),
            rEvents := [], cells := (runLoop steps envs cancel).cells, ok := false }
      else if cs.isEmpty then
        withDeferredRemove j.temporary infra.containerId
          { events := Ev.jobWrite Status.running false :: ((acquireStage j infra).1
              ++ detectStage j infra ++ [Ev.setContainerId infra.containerId]
              ++ (runLoop steps envs cancel).events ++ [Ev.jobWrite Status.success true]),
            rEvents := [], cells := (runLoop steps envs cancel).cells, ok := true }
      else
        withDeferredRemove j.temporary infra.containerId
          { events := Ev.jobWrite Status.running false :: ((acquireStage j infra).1
              ++ detectStage j infra ++ [Ev.setContainerId infra.containerId]
              ++ (runLoop steps envs cancel).events ++ [Ev.jobWrite Status.success true,
                Ev.mkdirArtifacts j.id, Ev.removeDirArtifacts j.id]),
            rEvents := processRunnables cs, cells := (runLoop steps envs cancel).cells,
            ok := true }) := by
  have hclean : ∀ (P : Prop), (j.repoName.isSome = true →
      infra.cloneInContainerOk = false
        ∨ strOptEmpty j.branch = false ∧ infra.checkoutOk = false → P) := by
    intro P ha hb
    exfalso
    rw [ha, Bool.true_and, Bool.not_eq_false'] at h7
    rw [Bool.and_eq_true] at h7
    obtain ⟨hX1, hX2⟩ := h7
    rcases hb with hb | ⟨hb1, hb2⟩
    · rw [hX1] at hb
      exact Bool.noConfusion hb
    · rw [hb1, hb2] at hX2
      exact Bool.noConfusion hX2
  by_cases hres : (runLoop steps envs cancel).res = RunResult.ok
  · by_cases hcs : cs = [] <;>
      simp [RunJobWithContext, h0, h1, h2, h3, h4, h5, h6, h7, hres, hcs] <;>
      exact hclean _
  · simp [RunJobWithContext, h0, h1, h2, h3, h4, h5, h6, h7, hres]
    exact hclean _

theorem jobWritesOf_cons_setContainerId (cid : String) (l : List Ev) :
    jobWritesOf (Ev.setContainerId cid :: l) = jobWritesOf l := by
  simp [jobWritesOf, List.filterMap_cons]

theorem jobWritesOf_cons_mkdirArtifacts (i : Nat) (l : List Ev) :
    jobWritesOf (Ev.mkdirArtifacts i :: l) = jobWritesOf l := by
  simp [jobWritesOf, List.filterMap_cons]

theorem jobWritesOf_cons_removeDirArtifacts (i : Nat) (l : List Ev) :
    jobWritesOf (Ev.removeDirArtifacts i :: l) = jobWritesOf l := by
  simp [jobWritesOf, List.filterMap_cons]

/-- The possible job-status write sequences of one executor run, paired
with whether the run returned an error: nothing (preflight), only the
`running` write (infrastructure failure), `running` then `cancelled`,
`running` then `failed`, or `running` then `success`. -/
theorem runJob_shape (j : JobRow) (infra : Infra) (steps : List StepRow)
    (envs : List StepEnv) (cs : List RunnableCase) (cancel : CancelObs) :
    (jobWritesOf (RunJobWithContext j infra steps envs cs cancel).events = []
        ∧ (RunJobWithContext j infra steps envs cs cancel).ok = true)
    ∨ (jobWritesOf (RunJobWithContext j infra steps envs cs cancel).events = [(Status.running, false)]
        ∧ (RunJobWithContext j infra steps envs cs cancel).ok = false)
    ∨ (jobWritesOf (RunJobWithContext j infra steps envs cs cancel).events
          = [(Status.running, false), (Status.cancelled, true)]
        ∧ (RunJobWithContext j infra steps envs cs cancel).ok = false)
    ∨ (jobWritesOf (RunJobWithContext j infra steps envs cs cancel).events
          = [(Status.running, false), (Status.failed, true)]
        ∧ (RunJobWithContext j infra steps envs cs cancel).ok = false)
    ∨ (jobWritesOf (RunJobWithContext j infra steps envs cs cancel).events
          = [(Status.running, false), (Status.success, true)]
        ∧ (RunJobWithContext j infra steps envs cs cancel).ok = true) := by
  cases h0 : j.cancelled with
  | true =>
    rw [runJob_preflight j infra steps envs cs cancel h0]
    exact Or.inl ⟨rfl, rfl⟩
  | false =>
  cases h1 : (acquireStage j infra).2 with
  | false =>
    rw [runJob_acqFail j infra steps envs cs cancel h0 h1]
    refine Or.inr (Or.inl ⟨?_, rfl⟩)
    simp [jobWritesOf_cons_jobWrite, jobWritesOf_acquireStage]
  | true =>
  by_cases h2 : cancel = CancelObs.preSteps
  · rw [runJob_preSteps j infra steps envs cs cancel h0 h1 h2]
    refine Or.inr (Or.inr (Or.inl ⟨?_, rfl⟩))
    simp [jobWritesOf_cons_jobWrite, jobWritesOf_append, jobWritesOf_acquireStage,
      jobWritesOf_detectStage]
  · cases h3 : (!infra.pullOk && !infra.fallbackPullOk) with
    | true =>
      rw [runJob_pullFail j infra steps envs cs cancel h0 h1 h2 h3]
      refine Or.inr (Or.inl ⟨?_, rfl⟩)
      simp [jobWritesOf_cons_jobWrite, jobWritesOf_append, jobWritesOf_acquireStage,
        jobWritesOf_detectStage]
    | false =>
    cases h4 : infra.createOk with
    | false =>
      rw [runJob_createFail j infra steps envs cs cancel h0 h1 h2 h3 h4]
      refine Or.inr (Or.inl ⟨?_, rfl⟩)
      simp [jobWritesOf_cons_jobWrite, jobWritesOf_append, jobWritesOf_acquireStage,
        jobWritesOf_detectStage]
    | true =>
    cases h5 : infra.startOk with
    | false =>
      rw [runJob_startFail j infra steps envs cs cancel h0 h1 h2 h3 h4 h5,
        withDeferredRemove_jobWrites, withDeferredRemove_ok]
      refine Or.inr (Or.inl ⟨?_, rfl⟩)
      simp [jobWritesOf_cons_jobWrite, jobWritesOf_append, jobWritesOf_acquireStage,
        jobWritesOf_detectStage, jobWritesOf_cons_setContainerId]
    | true =>
    cases h6 : (!infra.pullOk && infra.installScriptPresent && !infra.installOk) with
    | true =>
      rw [runJob_installFail j infra steps envs cs cancel h0 h1 h2 h3 h4 h5 h6,
        withDeferredRemove_jobWrites, withDeferredRemove_ok]
      refine Or.inr (Or.inl ⟨?_, rfl⟩)
      simp [jobWritesOf_cons_jobWrite, jobWritesOf_append, jobWritesOf_acquireStage,
        jobWritesOf_detectStage, jobWritesOf_cons_setContainerId]
    | false =>
    cases h7 : (j.repoName.isSome
        && !(infra.cloneInContainerOk && (strOptEmpty j.branch || infra.checkoutOk))) with
    | true =>
      rw [runJob_cloneFail j infra steps envs cs cancel h0 h1 h2 h3 h4 h5 h6 h7,
        withDeferredRemove_jobWrites, withDeferredRemove_ok]
      refine Or.inr (Or.inl ⟨?_, rfl⟩)
      simp [jobWritesOf_cons_jobWrite, jobWritesOf_append, jobWritesOf_acquireStage,
        jobWritesOf_detectStage, jobWritesOf_cons_setContainerId]
    | false =>
    rw [runJob_reachLoop j infra steps envs cs cancel h0 h1 h2 h3 h4 h5 h6 h7]
    have hspec := runStepsFrom_spec steps envs (initCells steps) 0 cancel
    by_cases hres : (runLoop steps envs cancel).res = RunResult.ok
    · rw [if_neg (by simp [hres])]
      have hjw : jobWritesOf (runLoop steps envs cancel).events = [] := by
        have := hspec.2.1 hres
        exact this.1
      by_cases hcs : cs.isEmpty
      · rw [if_pos hcs, withDeferredRemove_jobWrites, withDeferredRemove_ok]
        refine Or.inr (Or.inr (Or.inr (Or.inr ⟨?_, rfl⟩)))
        simp [jobWritesOf_cons_jobWrite, jobWritesOf_append, jobWritesOf_acquireStage,
          jobWritesOf_detectStage, jobWritesOf_cons_setContainerId, hjw]
      · rw [if_neg hcs, withDeferredRemove_jobWrites, withDeferredRemove_ok]
        refine Or.inr (Or.inr (Or.inr (Or.inr ⟨?_, rfl⟩)))
        simp [jobWritesOf_cons_jobWrite, jobWritesOf_append, jobWritesOf_acquireStage,
          jobWritesOf_detectStage, jobWritesOf_cons_setContainerId,
          jobWritesOf_cons_mkdirArtifacts, jobWritesOf_cons_removeDirArtifacts, hjw]
    · rw [if_pos (by simp [hres]), withDeferredRemove_jobWrites, withDeferredRemove_ok]
      cases hres2 : (runLoop steps envs cancel).res with
      | ok => exact absurd hres2 hres
      | cancelled =>
        have hjw : jobWritesOf (runLoop steps envs cancel).events = [(Status.cancelled, true)] :=
          (hspec.1 hres2).1
        refine Or.inr (Or.inr (Or.inl ⟨?_, rfl⟩))
        simp [jobWritesOf_cons_jobWrite, jobWritesOf_append, jobWritesOf_acquireStage,
          jobWritesOf_detectStage, jobWritesOf_cons_setContainerId, hjw]
      | stepFailed =>
        have hjw : jobWritesOf (runLoop steps envs cancel).events = [(Status.failed, true)] :=
          (hspec.2.2 hres2).1
        refine Or.inr (Or.inr (Or.inr (Or.inl ⟨?_, rfl⟩)))
        simp [jobWritesOf_cons_jobWrite, jobWritesOf_append, jobWritesOf_acquireStage,
          jobWritesOf_detectStage, jobWritesOf_cons_setContainerId, hjw]

theorem stepW_not_mem_acquire (j : JobRow) (infra : Infra) (w : StepWrite) :
    Ev.stepW w ∉ (acquireStage j infra).1 := by
  intro h
  rcases acquireStage_shape j infra _ h with h1 | h1 <;> exact Ev.noConfusion h1

theorem stepW_not_mem_detect (j : JobRow) (infra : Infra) (w : StepWrite) :
    Ev.stepW w ∉ detectStage j infra := by
  intro h
  rcases detectStage_shape j infra _ h with h1 | h1 <;> exact Ev.noConfusion h1

/-- The dispatcher writes `failed` after any executor error, so such a job
finally reads `failed`. -/
theorem queueFinal_of_not_ok (j : JobRow) (infra : Infra) (steps : List StepRow)
    (envs : List StepEnv) (cs : List RunnableCase) (cancel : CancelObs)
    (h : (RunJobWithContext j infra steps envs cs cancel).ok = false) :
    queueFinalStatus j infra steps envs cs cancel = Status.failed := by
  unfold queueFinalStatus queueJobWrites
  simp only [h]
  simp

/-- Whenever the steps-table cancellation sweep ran, no step of the final
steps table is left pending or running. -/
theorem runJob_sweep_cells (j : JobRow) (infra : Infra) (steps : List StepRow)
    (envs : List StepEnv) (cs : List RunnableCase) (cancel : CancelObs)
    (hs : Ev.stepW StepWrite.sweepCancel ∈ (RunJobWithContext j infra steps envs cs cancel).events) :
    ∀ c ∈ (RunJobWithContext j infra steps envs cs cancel).cells,
      c.status ≠ Status.pending ∧ c.status ≠ Status.running := by
  cases h0 : j.cancelled with
  | true =>
    rw [runJob_preflight j infra steps envs cs cancel h0] at hs
    simp at hs
  | false =>
  cases h1 : (acquireStage j infra).2 with
  | false =>
    rw [runJob_acqFail j infra steps envs cs cancel h0 h1] at hs
    rcases List.mem_cons.mp hs with h | h
    · exact Ev.noConfusion h
    · exact absurd h (stepW_not_mem_acquire j infra _)
  | true =>
  by_cases h2 : cancel = CancelObs.preSteps
  · rw [runJob_preSteps j infra steps envs cs cancel h0 h1 h2] at hs
    rcases List.mem_cons.mp hs with h | h
    · exact Ev.noConfusion h
    · rcases List.mem_append.mp h with h | h
      · rcases List.mem_append.mp h with h | h
        · exact absurd h (stepW_not_mem_acquire j infra _)
        · exact absurd h (stepW_not_mem_detect j infra _)
      · rcases List.mem_cons.mp h with h | h
        · exact Ev.noConfusion h
        · simp at h
  · cases h3 : (!infra.pullOk && !infra.fallbackPullOk) with
    | true =>
      rw [runJob_pullFail j infra steps envs cs cancel h0 h1 h2 h3] at hs
      rcases List.mem_cons.mp hs with h | h
      · exact Ev.noConfusion h
      · rcases List.mem_append.mp h with h | h
        · exact absurd h (stepW_not_mem_acquire j infra _)
        · exact absurd h (stepW_not_mem_detect j infra _)
    | false =>
    cases h4 : infra.createOk with
    | false =>
      rw [runJob_createFail j infra steps envs cs cancel h0 h1 h2 h3 h4] at hs
      rcases List.mem_cons.mp hs with h | h
      · exact Ev.noConfusion h
      · rcases List.mem_append.mp h with h | h
        · exact absurd h (stepW_not_mem_acquire j infra _)
        · exact absurd h (stepW_not_mem_detect j infra _)
    | true =>
    have hcore : ∀ x, Ev.stepW StepWrite.sweepCancel ∈
        (Ev.jobWrite Status.running false :: ((acquireStage j infra).1
          ++ detectStage j infra ++ [Ev.setContainerId x])) → False := by
      intro x h
      rcases List.mem_cons.mp h with h | h
      · exact Ev.noConfusion h
      · rcases List.mem_append.mp h with h | h
        · rcases List.mem_append.mp h with h | h
          · exact absurd h (stepW_not_mem_acquire j infra _)
          · exact absurd h (stepW_not_mem_detect j infra _)
        · rcases List.mem_cons.mp h with h | h
          · exact Ev.noConfusion h
          · simp at h
    cases h5 : infra.startOk with
    | false =>
      rw [runJob_startFail j infra steps envs cs cancel h0 h1 h2 h3 h4 h5] at hs
      rcases (withDeferredRemove_mem _ _ _ _).mp hs with h | ⟨_, h⟩
      · exact absurd h (fun hh => hcore _ hh)
      · exact Ev.noConfusion h
    | true =>
    cases h6 : (!infra.pullOk && infra.installScriptPresent && !infra.installOk) with
    | true =>
      rw [runJob_installFail j infra steps envs cs cancel h0 h1 h2 h3 h4 h5 h6] at hs
      rcases (withDeferredRemove_mem _ _ _ _).mp hs with h | ⟨_, h⟩
      · exact absurd h (fun hh => hcore _ hh)
      · exact Ev.noConfusion h
    | false =>
    cases h7 : (j.repoName.isSome
        && !(infra.cloneInContainerOk && (strOptEmpty j.branch || infra.checkoutOk))) with
    | true =>
      rw [runJob_cloneFail j infra steps envs cs cancel h0 h1 h2 h3 h4 h5 h6 h7] at hs
      rcases (withDeferredRemove_mem _ _ _ _).mp hs with h | ⟨_, h⟩
      · exact absurd h (fun hh => hcore _ hh)
      · exact Ev.noConfusion h
    | false =>
    rw [runJob_reachLoop j infra steps envs cs cancel h0 h1 h2 h3 h4 h5 h6 h7] at hs ⊢
    have hspec := runStepsFrom_spec steps envs (initCells steps) 0 cancel
    have hloopmem : ∀ tailEvs,
        Ev.stepW StepWrite.sweepCancel ∈
          (Ev.jobWrite Status.running false :: ((acquireStage j infra).1
            ++ detectStage j infra ++ [Ev.setContainerId infra.containerId]
            ++ (runLoop steps envs cancel).events ++ tailEvs)) →
        Ev.stepW StepWrite.sweepCancel ∈ (runLoop steps envs cancel).events
          ∨ Ev.stepW StepWrite.sweepCancel ∈ tailEvs := by
      intro tailEvs h
      rcases List.mem_cons.mp h with h | h
      · exact Ev.noConfusion h
      · rcases List.mem_append.mp h with h | h
        · rcases List.mem_append.mp h with h | h
          · rcases List.mem_append.mp h with h | h
            · rcases List.mem_append.mp h with h | h
              · exact absurd h (stepW_not_mem_acquire j infra _)
              · exact absurd h (stepW_not_mem_detect j infra _)
            · rcases List.mem_cons.mp h with h | h
              · exact Ev.noConfusion h
              · simp at h
          · exact Or.inl h
        · exact Or.inr h
    by_cases hres : (runLoop steps envs cancel).res = RunResult.ok
    · rw [if_neg (by simp [hres])] at hs ⊢
      have hns := (hspec.2.1 hres).2
      by_cases hcs : cs.isEmpty
      · rw [if_pos hcs] at hs ⊢
        rw [withDeferredRemove_cells]
        rcases (withDeferredRemove_mem _ _ _ _).mp hs with h | ⟨_, h⟩
        · have := hloopmem [Ev.jobWrite Status.success true]
            (by
              have h2 : Ev.stepW StepWrite.sweepCancel ∈
                  (Ev.jobWrite Status.running false :: ((acquireStage j infra).1
                    ++ detectStage j infra ++ [Ev.setContainerId infra.containerId]
                    ++ (runLoop steps envs cancel).events
                    ++ [Ev.jobWrite Status.success true])) := by
                simpa [List.append_assoc, List.mem_cons, List.mem_append] using h
              exact h2)
          rcases this with h2 | h2
          · exact absurd h2 hns
          · rcases List.mem_cons.mp h2 with h3 | h3
            · exact Ev.noConfusion h3
            · simp at h3
        · exact Ev.noConfusion h
      · rw [if_neg hcs] at hs ⊢
        rw [withDeferredRemove_cells]
        rcases (withDeferredRemove_mem _ _ _ _).mp hs with h | ⟨_, h⟩
        · have := hloopmem [Ev.jobWrite Status.success true,
              Ev.mkdirArtifacts j.id, Ev.removeDirArtifacts j.id]
            (by simpa [List.append_assoc, List.mem_cons, List.mem_append] using h)
          rcases this with h2 | h2
          · exact absurd h2 hns
          · rcases List.mem_cons.mp h2 with h3 | h3
            · exact Ev.noConfusion h3
            · rcases List.mem_cons.mp h3 with h4 | h4
              · exact Ev.noConfusion h4
              · rcases List.mem_cons.mp h4 with h5 | h5
                · exact Ev.noConfusion h5
                · simp at h5
        · exact Ev.noConfusion h
    · rw [if_pos (by simp [hres])] at hs ⊢
      rw [withDeferredRemove_cells]
      cases hres2 : (runLoop steps envs cancel).res with
      | ok => exact absurd hres2 hres
      | cancelled => exact (hspec.1 hres2).2.2
      | stepFailed =>
        rcases (withDeferredRemove_mem _ _ _ _).mp hs with h | ⟨_, h⟩
        · have := hloopmem []
            (by simpa [List.append_assoc, List.mem_cons, List.mem_append] using h)
          rcases this with h2 | h2
          · exact absurd h2 (hspec.2.2 hres2).2
          · simp at h2
        · exact Ev.noConfusion h

/-! ## Claims -/

/-- Whether no job-status write follows a terminal one in a write
sequence. -/
def noWriteAfterTerminalB : List (Status × Bool) → Bool
  | [] => true
  | (s, _) :: rest => if s.isTerminal then rest.isEmpty else noWriteAfterTerminalB rest

/-- A job row as the executor reads it for a plain successful dispatch:
non-temporary, cloned from a repo URL, language and version set. -/
def sampleJob : JobRow :=
  { id := 1, cancelled := false, temporary := false,
    repoURL := some "https://example.com/app.git", folder := none, branch := some "main",
    language := some "golang", version := some "1.21", repoName := none }

/-- An infrastructure oracle where every external call succeeds. -/
def sampleInfra : Infra :=
  { mkdirOk := true, cloneOk := true, detected := { language := "golang", version := "latest" },
    pullOk := true, fallbackPullOk := true, createOk := true, containerId := "c1",
    startOk := true, installScriptPresent := false, installOk := true,
    cloneInContainerOk := true, checkoutOk := true }

def sampleStepSleep : StepRow := { typ := "bash", content := "sleep 30", files := [] }

def sampleEnvSleep : StepEnv := { fileOk := [], bashLines := ["zzz"], bashExit := 0 }

/-- C9: if the job's `cancelled` flag is already set at the preflight
check, `RunJobWithContext` returns without error and performs no store
write, no step write, no runnables processing: the job and step rows stay
exactly as they were. -/
theorem c9_preflight_noop (j : JobRow) (infra : Infra) (steps : List StepRow)
    (envs : List StepEnv) (cs : List RunnableCase) (cancel : CancelObs) :
    RunJobWithContext { j with cancelled := true } infra steps envs cs cancel =
      { events := [], rEvents := [], cells := initCells steps, ok := true } :=
  runJob_preflight _ infra steps envs cs cancel rfl

/-- C1 counterexample: a running job whose cancellation is observed while
draining step 0's output (worker.go:806-815) is settled to `cancelled` by
the executor, but `RunJobWithContext` then returns an error and the
dispatcher's error path (worker.go:1413-1420) overwrites the job row to
`failed`: the claim's final status `cancelled` does not hold. -/
theorem c1_counterexample :
    queueFinalStatus sampleJob sampleInfra [sampleStepSleep] [sampleEnvSleep] []
        (CancelObs.duringStep 0 0) = Status.failed
      ∧ Status.failed ≠ Status.cancelled := by
  constructor
  · rfl
  · decide

/-- C1 (amended): whenever the executor observes the cancellation (it
writes `cancelled`), it never writes `success`, its last job-status write
is `cancelled` with a finished timestamp, and — when the observation
happened inside the step loop, i.e. the steps-table sweep ran — no step is
left pending or running; but because the executor then returns an error,
the dispatcher's error path overwrites the job and its final status under
the queue is `failed`, not `cancelled` (and a cancellation observed before
the step loop leaves the steps pending). -/
theorem c1_cancellation_settlement_amended (j : JobRow) (infra : Infra)
    (steps : List StepRow) (envs : List StepEnv) (cs : List RunnableCase)
    (cancel : CancelObs)
    (hobs : (Status.cancelled, true) ∈
      jobWritesOf (RunJobWithContext j infra steps envs cs cancel).events) :
    (∀ b, (Status.success, b) ∉
        jobWritesOf (RunJobWithContext j infra steps envs cs cancel).events)
    ∧ (jobWritesOf (RunJobWithContext j infra steps envs cs cancel).events).getLast?
        = some (Status.cancelled, true)
    ∧ (Ev.stepW StepWrite.sweepCancel ∈ (RunJobWithContext j infra steps envs cs cancel).events →
        ∀ c ∈ (RunJobWithContext j infra steps envs cs cancel).cells,
          c.status ≠ Status.pending ∧ c.status ≠ Status.running)
    ∧ queueFinalStatus j infra steps envs cs cancel = Status.failed := by
  rcases runJob_shape j infra steps envs cs cancel with ⟨hw, hok⟩ | ⟨hw, hok⟩
    | ⟨hw, hok⟩ | ⟨hw, hok⟩ | ⟨hw, hok⟩
  · rw [hw] at hobs
    simp at hobs
  · rw [hw] at hobs
    simp at hobs
  · refine ⟨?_, ?_, ?_, ?_⟩
    · intro b hmem
      rw [hw] at hmem
      simp at hmem
    · rw [hw]
      rfl
    · exact runJob_sweep_cells j infra steps envs cs cancel
    · exact queueFinal_of_not_ok j infra steps envs cs cancel hok
  · rw [hw] at hobs
    simp at hobs
  · rw [hw] at hobs
    simp at hobs

/-- C1 amended, witnessed at the concrete cancelled run of
`c1_counterexample`'s input with cancellation observed at the top of the
step loop. -/
theorem c1_cancellation_settlement_amended_witness :
    (∀ b, (Status.success, b) ∉
        jobWritesOf (RunJobWithContext sampleJob sampleInfra [sampleStepSleep] [sampleEnvSleep]
          [] (CancelObs.beforeStep 0)).events)
    ∧ (jobWritesOf (RunJobWithContext sampleJob sampleInfra [sampleStepSleep] [sampleEnvSleep]
          [] (CancelObs.beforeStep 0)).events).getLast? = some (Status.cancelled, true)
    ∧ (Ev.stepW StepWrite.sweepCancel ∈ (RunJobWithContext sampleJob sampleInfra [sampleStepSleep]
          [sampleEnvSleep] [] (CancelObs.beforeStep 0)).events →
        ∀ c ∈ (RunJobWithContext sampleJob sampleInfra [sampleStepSleep] [sampleEnvSleep]
          [] (CancelObs.beforeStep 0)).cells,
          c.status ≠ Status.pending ∧ c.status ≠ Status.running)
    ∧ queueFinalStatus sampleJob sampleInfra [sampleStepSleep] [sampleEnvSleep] []
        (CancelObs.beforeStep 0) = Status.failed :=
  c1_cancellation_settlement_amended sampleJob sampleInfra [sampleStepSleep] [sampleEnvSleep]
    [] (CancelObs.beforeStep 0) (by decide)

/-- A pipeline job row already settled at `success` when the stop sweep
reads it. -/
def sampleJobDbSuccess : JobDb :=
  { id := 1, status := Status.success, tempDir := none, containerId := none, runnables := [] }

/-- C2 counterexample: the stop-pipeline sweep writes `stopped` to a job
whose status is the terminal `success`, so a terminal status is not left
untouched by every engine operation. -/
theorem c2_counterexample :
    sampleJobDbSuccess.status.isTerminal = true
    ∧ SweepEv.setJobStatus 1 Status.stopped true ∈ stopPipelineJob sampleJobDbSuccess
    ∧ Status.stopped ≠ Status.success := by
  refine ⟨rfl, ?_, by decide⟩
  decide

/-- C2 (amended): within one executor run no job-status write follows a
terminal one — the executor itself never transitions out of a terminal
status; but the two other cited operations do overwrite terminal statuses:
the dispatcher's error path rewrites a job settled at `cancelled` to
`failed` whenever the run returned an error, and the stop-pipeline sweep
writes `stopped` to every job it touches regardless of its current
status. -/
theorem c2_terminal_stickiness_amended :
    (∀ (j : JobRow) (infra : Infra) (steps : List StepRow) (envs : List StepEnv)
        (cs : List RunnableCase) (cancel : CancelObs),
      noWriteAfterTerminalB
        (jobWritesOf (RunJobWithContext j infra steps envs cs cancel).events) = true)
    ∧ (∀ (j : JobRow) (infra : Infra) (steps : List StepRow) (envs : List StepEnv)
        (cs : List RunnableCase) (cancel : CancelObs),
      (jobWritesOf (RunJobWithContext j infra steps envs cs cancel).events).getLast?
          = some (Status.cancelled, true) →
        queueFinalStatus j infra steps envs cs cancel = Status.failed)
    ∧ (∀ jd : JobDb, SweepEv.setJobStatus jd.id Status.stopped true ∈ stopPipelineJob jd) := by
  refine ⟨?_, ?_, ?_⟩
  · intro j infra steps envs cs cancel
    rcases runJob_shape j infra steps envs cs cancel with ⟨hw, _⟩ | ⟨hw, _⟩
      | ⟨hw, _⟩ | ⟨hw, _⟩ | ⟨hw, _⟩ <;> rw [hw] <;> rfl
  · intro j infra steps envs cs cancel hlast
    rcases runJob_shape j infra steps envs cs cancel with ⟨hw, hok⟩ | ⟨hw, hok⟩
      | ⟨hw, hok⟩ | ⟨hw, hok⟩ | ⟨hw, hok⟩ <;> rw [hw] at hlast
    · simp at hlast
    · simp at hlast
    · exact queueFinal_of_not_ok j infra steps envs cs cancel hok
    · simp at hlast
    · simp at hlast
  · intro jd
    unfold stopPipelineJob
    simp

/-- C2 amended, witnessed: the dispatcher overwrite at the concrete
cancelled run, and the sweep write on the concrete success job. -/
theorem c2_terminal_stickiness_amended_witness :
    queueFinalStatus sampleJob sampleInfra [sampleStepSleep] [sampleEnvSleep] []
        (CancelObs.beforeStep 0) = Status.failed
    ∧ SweepEv.setJobStatus 1 Status.stopped true ∈ stopPipelineJob sampleJobDbSuccess :=
  ⟨c2_terminal_stickiness_amended.2.1 sampleJob sampleInfra [sampleStepSleep] [sampleEnvSleep]
      [] (CancelObs.beforeStep 0) (by decide),
    c2_terminal_stickiness_amended.2.2 sampleJobDbSuccess⟩

theorem curEnv_cons (e : StepEnv) (t : List StepEnv) : curEnv (e :: t) = e := rfl

theorem afterFilesCells_length (cells : List StepCell) (idx n : Nat) (f : List Bool) :
    (afterFilesCells cells idx n f).length = cells.length := by
  unfold afterFilesCells
  split <;> simp

theorem afterFilesCells_getD_ne (cells : List StepCell) (idx n : Nat) (f : List Bool)
    (i : Nat) (hi : idx ≠ i) :
    (afterFilesCells cells idx n f).getD i pendCell = cells.getD i pendCell := by
  unfold afterFilesCells
  split
  · rw [getD_set_ne _ _ _ _ _ hi, getD_set_ne _ _ _ _ _ hi]
  · rw [getD_set_ne _ _ _ _ _ hi]

/-- Halt-on-failure of the step loop: reaching a bash step whose exec
exits non-zero (every earlier bash step exited zero), the loop persists
that step as failed with its captured output, writes the job failed, and
leaves every later cell untouched. -/
theorem runStepsFrom_halt (steps : List StepRow) :
    ∀ (envs : List StepEnv) (cells : List StepCell) (idx k : Nat),
    envs.length = steps.length →
    cells.length = idx + steps.length →
    (∀ i, idx ≤ i → cells.getD i pendCell = pendCell) →
    k < steps.length →
    (steps.getD k dStep).typ = "bash" →
    (envs.getD k defaultStepEnv).bashExit ≠ 0 →
    (∀ m, m < k → (steps.getD m dStep).typ = "bash" →
        (envs.getD m defaultStepEnv).bashExit = 0) →
    (runStepsFrom cells idx steps envs CancelObs.never).res = RunResult.stepFailed
    ∧ (runStepsFrom cells idx steps envs CancelObs.never).cells.getD (idx + k) pendCell =
        { status := Status.failed,
          output := some (linesOut (envs.getD k defaultStepEnv).bashLines) }
    ∧ (∀ i, idx + k < i →
        (runStepsFrom cells idx steps envs CancelObs.never).cells.getD i pendCell
          = cells.getD i pendCell)
    ∧ jobWritesOf (runStepsFrom cells idx steps envs CancelObs.never).events
        = [(Status.failed, true)] := by
  induction steps with
  | nil =>
    intro envs cells idx k _ _ _ hk
    simp at hk
  | cons st rest ih =>
    intro envs cells idx k hlen hclen hpend hk hbash hexit hearlier
    have hc : CancelObs.never ≠ CancelObs.beforeStep idx := by intro hh; cases hh
    cases envs with
    | nil => simp at hlen
    | cons e etail =>
    have hlen2 : etail.length = rest.length := by simpa using hlen
    cases k with
    | zero =>
      rw [List.getD_cons_zero] at hbash hexit
      have hd : isDuringStep CancelObs.never idx (curEnv (e :: etail)).bashLines.length = false :=
        rfl
      have hexit2 : (curEnv (e :: etail)).bashExit ≠ 0 := by
        rw [curEnv_cons]; exact hexit
      rw [runStepsFrom_bashFail cells idx st rest (e :: etail) CancelObs.never hc hbash hd hexit2]
      refine ⟨rfl, ?_, ?_, ?_⟩
      · rw [Nat.add_zero, curEnv_cons]
        rw [getD_set_self _ _ _ _ (by rw [afterFilesCells_length, hclen]; simp)]
        rw [List.getD_cons_zero]
      · intro i hi
        rw [Nat.add_zero] at hi
        rw [getD_set_ne _ _ _ _ _ (Nat.ne_of_lt hi), afterFilesCells_getD_ne]
        exact Nat.ne_of_lt hi
      · simp [jobWritesOf_append, jobWritesOf_stepHeadEvents, jobWritesOf_cons_stepW,
          jobWritesOf_cons_jobWrite]
    | succ k2 =>
      have hk2 : k2 < rest.length := by simpa using hk
      rw [List.getD_cons_succ] at hbash hexit
      have hd : isDuringStep CancelObs.never idx (curEnv (e :: etail)).bashLines.length = false :=
        rfl
      by_cases hb0 : st.typ = "bash"
      · have he0 : (curEnv (e :: etail)).bashExit = 0 := by
          rw [curEnv_cons]
          have := hearlier 0 (Nat.succ_pos k2) (by rw [List.getD_cons_zero]; exact hb0)
          rw [List.getD_cons_zero] at this
          exact this
        rw [runStepsFrom_bashOk cells idx st rest (e :: etail) CancelObs.never hc hb0 hd he0]
        set c3 := (afterFilesCells cells idx st.files.length (curEnv (e :: etail)).fileOk).set idx
          { status := Status.success, output := some (linesOut (curEnv (e :: etail)).bashLines) }
          with hc3
        have hr := ih etail c3 (idx + 1) k2 hlen2
          (by
            rw [hc3, List.length_set, afterFilesCells_length, hclen]
            simp only [List.length_cons]
            omega)
          (by
            intro i hi
            rw [hc3, getD_set_ne _ _ _ _ _ (by omega), afterFilesCells_getD_ne _ _ _ _ _ (by omega)]
            exact hpend i (by omega))
          hk2 hbash hexit
          (by
            intro m hm hbm
            have := hearlier (m + 1) (by omega) (by rw [List.getD_cons_succ]; exact hbm)
            rw [List.getD_cons_succ] at this
            exact this)
        simp only [List.tail_cons]
        refine ⟨hr.1, ?_, ?_, ?_⟩
        · have harith : idx + (k2 + 1) = idx + 1 + k2 := by omega
          rw [harith]
          have := hr.2.1
          rw [List.getD_cons_succ] at *
          exact this
        · intro i hi
          have := hr.2.2.1 i (by omega)
          rw [this, hc3, getD_set_ne _ _ _ _ _ (by omega),
            afterFilesCells_getD_ne _ _ _ _ _ (by omega)]
        · rw [jobWritesOf_append, jobWritesOf_append, jobWritesOf_stepHeadEvents,
            jobWritesOf_cons_stepW, jobWritesOf_nil, hr.2.2.2]
          rfl
      · rw [runStepsFrom_nonbash cells idx st rest (e :: etail) CancelObs.never hc hb0]
        set c2 := afterFilesCells cells idx st.files.length (curEnv (e :: etail)).fileOk with hc2
        have hr := ih etail c2 (idx + 1) k2 hlen2
          (by
            rw [hc2, afterFilesCells_length, hclen]
            simp only [List.length_cons]
            omega)
          (by
            intro i hi
            rw [hc2, afterFilesCells_getD_ne _ _ _ _ _ (by omega)]
            exact hpend i (by omega))
          hk2 hbash hexit
          (by
            intro m hm hbm
            have := hearlier (m + 1) (by omega) (by rw [List.getD_cons_succ]; exact hbm)
            rw [List.getD_cons_succ] at this
            exact this)
        simp only [List.tail_cons]
        refine ⟨hr.1, ?_, ?_, ?_⟩
        · have harith : idx + (k2 + 1) = idx + 1 + k2 := by omega
          rw [harith]
          have := hr.2.1
          rw [List.getD_cons_succ] at *
          exact this
        · intro i hi
          have := hr.2.2.1 i (by omega)
          rw [this, hc2, afterFilesCells_getD_ne _ _ _ _ _ (by omega)]
        · rw [jobWritesOf_append, jobWritesOf_stepHeadEvents, hr.2.2.2]
          rfl

/-- C3: with no cancellation, when step `k` is a bash step whose exec
exits non-zero and every earlier bash step's exec exited zero, the loop
run over freshly inserted step rows persists step `k` as failed with the
captured output, writes the job failed with a finished timestamp, stops
with an error, and leaves every step after `k` pending with no output. -/
theorem c3_halt_on_failure (steps : List StepRow) (envs : List StepEnv) (k : Nat)
    (hlen : envs.length = steps.length)
    (hk : k < steps.length)
    (hbash : (steps.getD k dStep).typ = "bash")
    (hexit : (envs.getD k defaultStepEnv).bashExit ≠ 0)
    (hearlier : ∀ m, m < k → (steps.getD m dStep).typ = "bash" →
        (envs.getD m defaultStepEnv).bashExit = 0) :
    (runLoop steps envs CancelObs.never).res = RunResult.stepFailed
    ∧ (runLoop steps envs CancelObs.never).cells.getD k pendCell =
        { status := Status.failed,
          output := some (linesOut (envs.getD k defaultStepEnv).bashLines) }
    ∧ (∀ i, k < i → (runLoop steps envs CancelObs.never).cells.getD i pendCell = pendCell)
    ∧ jobWritesOf (runLoop steps envs CancelObs.never).events = [(Status.failed, true)] := by
  have h := runStepsFrom_halt steps envs (initCells steps) 0 k hlen
    (by rw [initCells_length]; simp)
    (fun i _ => initCells_getD steps i)
    hk hbash hexit hearlier
  unfold runLoop
  refine ⟨h.1, by simpa using h.2.1, ?_, h.2.2.2⟩
  intro i hi
  have := h.2.2.1 i (by omega)
  rw [this, initCells_getD]

theorem afterFilesCells_getD_self (cells : List StepCell) (idx n : Nat) (f : List Bool)
    (hlt : idx < cells.length) (hff : fileFail n f = true) :
    (afterFilesCells cells idx n f).getD idx pendCell =
      { status := Status.failed, output := some "Failed to create file" } := by
  unfold afterFilesCells
  rw [if_pos hff]
  exact getD_set_self _ _ _ _ (by simpa using hlt)

/-- With no cancellation, the loop never touches cells below its start
index. -/
theorem runStepsFrom_cells_lower (steps : List StepRow) :
    ∀ (envs : List StepEnv) (cells : List StepCell) (idx i : Nat), i < idx →
    (runStepsFrom cells idx steps envs CancelObs.never).cells.getD i pendCell
      = cells.getD i pendCell := by
  induction steps with
  | nil =>
    intro envs cells idx i _
    rw [runStepsFrom_nil]
  | cons st rest ih =>
    intro envs cells idx i hi
    have hc : CancelObs.never ≠ CancelObs.beforeStep idx := by intro hh; cases hh
    have hd : isDuringStep CancelObs.never idx (curEnv envs).bashLines.length = false := rfl
    by_cases hb : st.typ = "bash"
    · by_cases he : (curEnv envs).bashExit = 0
      · rw [runStepsFrom_bashOk cells idx st rest envs CancelObs.never hc hb hd he]
        simp only []
        rw [ih envs.tail _ (idx + 1) i (by omega),
          getD_set_ne _ _ _ _ _ (by omega), afterFilesCells_getD_ne _ _ _ _ _ (by omega)]
      · rw [runStepsFrom_bashFail cells idx st rest envs CancelObs.never hc hb hd he]
        simp only []
        rw [getD_set_ne _ _ _ _ _ (by omega), afterFilesCells_getD_ne _ _ _ _ _ (by omega)]
    · rw [runStepsFrom_nonbash cells idx st rest envs CancelObs.never hc hb]
      simp only []
      rw [ih envs.tail _ (idx + 1) i (by omega), afterFilesCells_getD_ne _ _ _ _ _ (by omega)]

/-- With no cancellation, a non-empty loop's trace contains the `running`
write of its first step. -/
theorem runStepsFrom_first_event (st : StepRow) (rest : List StepRow)
    (envs : List StepEnv) (cells : List StepCell) (idx : Nat) :
    Ev.stepW (StepWrite.setStatus idx Status.running)
      ∈ (runStepsFrom cells idx (st :: rest) envs CancelObs.never).events := by
  have hc : CancelObs.never ≠ CancelObs.beforeStep idx := by intro hh; cases hh
  have hd : isDuringStep CancelObs.never idx (curEnv envs).bashLines.length = false := rfl
  have hhead : Ev.stepW (StepWrite.setStatus idx Status.running)
      ∈ stepHeadEvents idx st.files.length (curEnv envs).fileOk :=
    List.mem_cons_self _ _
  by_cases hb : st.typ = "bash"
  · by_cases he : (curEnv envs).bashExit = 0
    · rw [runStepsFrom_bashOk cells idx st rest envs CancelObs.never hc hb hd he]
      simp only []
      exact List.mem_append.mpr (Or.inl (List.mem_append.mpr (Or.inl hhead)))
    · rw [runStepsFrom_bashFail cells idx st rest envs CancelObs.never hc hb hd he]
      exact List.mem_append.mpr (Or.inl hhead)
  · rw [runStepsFrom_nonbash cells idx st rest envs CancelObs.never hc hb]
    simp only []
    exact List.mem_append.mpr (Or.inl hhead)

theorem canned_mem_stepHeadEvents (idx n : Nat) (f : List Bool) (hff : fileFail n f = true) :
    Ev.stepW (StepWrite.setStatusOutput idx Status.failed "Failed to create file")
      ∈ stepHeadEvents idx n f :=
  List.mem_cons_of_mem _ (List.mem_map_of_mem Ev.stepW (fileWrites_mem_of_fileFail idx n f hff))

/-- What really happens when one of step `k`'s file-write execs fails:
the canned failure write is issued, but a bash step's exec still runs and
its result overwrites the step's row — the canned failure persists only
for non-bash steps — and the loop is halted at `k` exactly when the bash
exec exits non-zero. -/
theorem runStepsFrom_softfail (steps : List StepRow) :
    ∀ (envs : List StepEnv) (cells : List StepCell) (idx k : Nat),
    envs.length = steps.length →
    cells.length = idx + steps.length →
    (∀ i, idx ≤ i → cells.getD i pendCell = pendCell) →
    k < steps.length →
    (∀ m, m < k → (steps.getD m dStep).typ = "bash" →
        (envs.getD m defaultStepEnv).bashExit = 0) →
    fileFail (steps.getD k dStep).files.length (envs.getD k defaultStepEnv).fileOk = true →
    (Ev.stepW (StepWrite.setStatusOutput (idx + k) Status.failed "Failed to create file")
        ∈ (runStepsFrom cells idx steps envs CancelObs.never).events)
    ∧ ((steps.getD k dStep).typ = "bash" → (envs.getD k defaultStepEnv).bashExit = 0 →
        (runStepsFrom cells idx steps envs CancelObs.never).cells.getD (idx + k) pendCell
          = { status := Status.success,
              output := some (linesOut (envs.getD k defaultStepEnv).bashLines) }
        ∧ (k + 1 < steps.length →
            Ev.stepW (StepWrite.setStatus (idx + k + 1) Status.running)
              ∈ (runStepsFrom cells idx steps envs CancelObs.never).events))
    ∧ ((steps.getD k dStep).typ = "bash" → (envs.getD k defaultStepEnv).bashExit ≠ 0 →
        (runStepsFrom cells idx steps envs CancelObs.never).cells.getD (idx + k) pendCell
          = { status := Status.failed,
              output := some (linesOut (envs.getD k defaultStepEnv).bashLines) }
        ∧ (runStepsFrom cells idx steps envs CancelObs.never).res = RunResult.stepFailed)
    ∧ (¬ (steps.getD k dStep).typ = "bash" →
        (runStepsFrom cells idx steps envs CancelObs.never).cells.getD (idx + k) pendCell
          = { status := Status.failed, output := some "Failed to create file" }
        ∧ (k + 1 < steps.length →
            Ev.stepW (StepWrite.setStatus (idx + k + 1) Status.running)
              ∈ (runStepsFrom cells idx steps envs CancelObs.never).events)) := by
  induction steps with
  | nil =>
    intro envs cells idx k _ _ _ hk
    simp at hk
  | cons st rest ih =>
    intro envs cells idx k hlen hclen hpend hk hearlier hff
    have hc : CancelObs.never ≠ CancelObs.beforeStep idx := by intro hh; cases hh
    cases envs with
    | nil => simp at hlen
    | cons e etail =>
    have hlen2 : etail.length = rest.length := by simpa using hlen
    have hd : isDuringStep CancelObs.never idx (curEnv (e :: etail)).bashLines.length = false :=
      rfl
    cases k with
    | zero =>
      simp only [List.getD_cons_zero] at hff ⊢
      rw [Nat.add_zero]
      have hffe : fileFail st.files.length (curEnv (e :: etail)).fileOk = true := by
        rw [curEnv_cons]
        exact hff
      have hcanned := canned_mem_stepHeadEvents idx st.files.length
        (curEnv (e :: etail)).fileOk hffe
      by_cases hb : st.typ = "bash"
      · by_cases he : (curEnv (e :: etail)).bashExit = 0
        · rw [runStepsFrom_bashOk cells idx st rest (e :: etail) CancelObs.never hc hb hd he]
          simp only [List.tail_cons]
          refine ⟨?_, ?_, ?_, ?_⟩
          · exact List.mem_append.mpr (Or.inl (List.mem_append.mpr (Or.inl hcanned)))
          · intro _ _
            constructor
            · rw [runStepsFrom_cells_lower rest etail _ (idx + 1) idx (by omega)]
              rw [getD_set_self _ _ _ _
                (by rw [afterFilesCells_length, hclen]; simp)]
              rw [curEnv_cons]
            · intro hlt
              have hrest : 0 < rest.length := by simpa using hlt
              cases hrest2 : rest with
              | nil => rw [hrest2] at hrest; simp at hrest
              | cons st2 rest2 =>
                exact List.mem_append.mpr
                  (Or.inr (runStepsFrom_first_event st2 rest2 etail _ (idx + 1)))
          · intro _ he2
            rw [curEnv_cons] at he
            exact absurd he he2
          · intro hb2
            exact absurd hb hb2
        · rw [runStepsFrom_bashFail cells idx st rest (e :: etail) CancelObs.never hc hb hd he]
          refine ⟨?_, ?_, ?_, ?_⟩
          · exact List.mem_append.mpr (Or.inl hcanned)
          · intro _ he2
            rw [curEnv_cons] at he
            exact absurd he2 he
          · intro _ _
            constructor
            · rw [getD_set_self _ _ _ _
                (by rw [afterFilesCells_length, hclen]; simp)]
              rw [curEnv_cons]
            · rfl
          · intro hb2
            exact absurd hb hb2
      · rw [runStepsFrom_nonbash cells idx st rest (e :: etail) CancelObs.never hc hb]
        simp only [List.tail_cons]
        refine ⟨?_, ?_, ?_, ?_⟩
        · exact List.mem_append.mpr (Or.inl hcanned)
        · intro hb2
          exact absurd hb2 hb
        · intro hb2
          exact absurd hb2 hb
        · intro _
          constructor
          · rw [runStepsFrom_cells_lower rest etail _ (idx + 1) idx (by omega)]
            exact afterFilesCells_getD_self cells idx st.files.length
              (curEnv (e :: etail)).fileOk (by omega) hffe
          · intro hlt
            have hrest : 0 < rest.length := by simpa using hlt
            cases hrest2 : rest with
            | nil => rw [hrest2] at hrest; simp at hrest
            | cons st2 rest2 =>
              exact List.mem_append.mpr
                (Or.inr (runStepsFrom_first_event st2 rest2 etail _ (idx + 1)))
    | succ k2 =>
      have hk2 : k2 < rest.length := by simpa using hk
      rw [List.getD_cons_succ] at hff
      have hearlier2 : ∀ m, m < k2 → (rest.getD m dStep).typ = "bash" →
          (etail.getD m defaultStepEnv).bashExit = 0 := by
        intro m hm hbm
        have := hearlier (m + 1) (by omega) (by rw [List.getD_cons_succ]; exact hbm)
        rw [List.getD_cons_succ] at this
        exact this
      have harith : idx + (k2 + 1) = idx + 1 + k2 := by omega
      by_cases hb0 : st.typ = "bash"
      · have he0 : (curEnv (e :: etail)).bashExit = 0 := by
          rw [curEnv_cons]
          have := hearlier 0 (Nat.succ_pos k2) (by rw [List.getD_cons_zero]; exact hb0)
          rw [List.getD_cons_zero] at this
          exact this
        rw [runStepsFrom_bashOk cells idx st rest (e :: etail) CancelObs.never hc hb0 hd he0]
        set c3 := (afterFilesCells cells idx st.files.length (curEnv (e :: etail)).fileOk).set idx
          { status := Status.success, output := some (linesOut (curEnv (e :: etail)).bashLines) }
          with hc3
        have hr := ih etail c3 (idx + 1) k2 hlen2
          (by
            rw [hc3, List.length_set, afterFilesCells_length, hclen]
            simp only [List.length_cons]
            omega)
          (by
            intro i hi
            rw [hc3, getD_set_ne _ _ _ _ _ (by omega),
              afterFilesCells_getD_ne _ _ _ _ _ (by omega)]
            exact hpend i (by omega))
          hk2 hearlier2 hff
        simp only [List.tail_cons]
        rw [List.getD_cons_succ, List.getD_cons_succ, harith]
        refine ⟨?_, ?_, ?_, ?_⟩
        · exact List.mem_append.mpr (Or.inr hr.1)
        · intro hbk hek
          refine ⟨(hr.2.1 hbk hek).1, ?_⟩
          intro hlt
          have hlt2 : k2 + 1 < rest.length := by simpa using hlt
          have := (hr.2.1 hbk hek).2 hlt2
          have harith2 : idx + 1 + k2 + 1 = idx + (k2 + 1) + 1 := by omega
          rw [harith2] at this
          rw [harith2]
          exact List.mem_append.mpr (Or.inr this)
        · intro hbk hek
          exact ⟨(hr.2.2.1 hbk hek).1, (hr.2.2.1 hbk hek).2⟩
        · intro hbk
          refine ⟨(hr.2.2.2 hbk).1, ?_⟩
          intro hlt
          have hlt2 : k2 + 1 < rest.length := by simpa using hlt
          have := (hr.2.2.2 hbk).2 hlt2
          have harith2 : idx + 1 + k2 + 1 = idx + (k2 + 1) + 1 := by omega
          rw [harith2] at this
          rw [harith2]
          exact List.mem_append.mpr (Or.inr this)
      · rw [runStepsFrom_nonbash cells idx st rest (e :: etail) CancelObs.never hc hb0]
        set c2 := afterFilesCells cells idx st.files.length (curEnv (e :: etail)).fileOk
          with hc2
        have hr := ih etail c2 (idx + 1) k2 hlen2
          (by
            rw [hc2, afterFilesCells_length, hclen]
            simp only [List.length_cons]
            omega)
          (by
            intro i hi
            rw [hc2, afterFilesCells_getD_ne _ _ _ _ _ (by omega)]
            exact hpend i (by omega))
          hk2 hearlier2 hff
        simp only [List.tail_cons]
        rw [List.getD_cons_succ, List.getD_cons_succ, harith]
        refine ⟨?_, ?_, ?_, ?_⟩
        · exact List.mem_append.mpr (Or.inr hr.1)
        · intro hbk hek
          refine ⟨(hr.2.1 hbk hek).1, ?_⟩
          intro hlt
          have hlt2 : k2 + 1 < rest.length := by simpa using hlt
          have := (hr.2.1 hbk hek).2 hlt2
          have harith2 : idx + 1 + k2 + 1 = idx + (k2 + 1) + 1 := by omega
          rw [harith2] at this
          rw [harith2]
          exact List.mem_append.mpr (Or.inr this)
        · intro hbk hek
          exact ⟨(hr.2.2.1 hbk hek).1, (hr.2.2.1 hbk hek).2⟩
        · intro hbk
          refine ⟨(hr.2.2.2 hbk).1, ?_⟩
          intro hlt
          have hlt2 : k2 + 1 < rest.length := by simpa using hlt
          have := (hr.2.2.2 hbk).2 hlt2
          have harith2 : idx + 1 + k2 + 1 = idx + (k2 + 1) + 1 := by omega
          rw [harith2] at this
          rw [harith2]
          exact List.mem_append.mpr (Or.inr this)

def sampleStepEcho : StepRow := { typ := "bash", content := "echo hello", files := [] }

def sampleEnvEcho : StepEnv := { fileOk := [], bashLines := ["hello"], bashExit := 0 }

def sampleStepExit7 : StepRow := { typ := "bash", content := "exit 7", files := [] }

def sampleEnvExit7 : StepEnv := { fileOk := [], bashLines := ["boom"], bashExit := 7 }

/-- C3 witnessed at the two-step run `echo hello; exit 7`: step 1 fails
with its captured output, the job is written failed, and no step after
index 1 exists to stay pending (the quantifier holds vacuously there). -/
theorem c3_halt_on_failure_witness :
    (runLoop [sampleStepEcho, sampleStepExit7] [sampleEnvEcho, sampleEnvExit7]
        CancelObs.never).res = RunResult.stepFailed
    ∧ (runLoop [sampleStepEcho, sampleStepExit7] [sampleEnvEcho, sampleEnvExit7]
        CancelObs.never).cells.getD 1 pendCell =
        { status := Status.failed,
          output := some (linesOut ([sampleEnvEcho, sampleEnvExit7].getD 1
            defaultStepEnv).bashLines) }
    ∧ (∀ i, 1 < i → (runLoop [sampleStepEcho, sampleStepExit7] [sampleEnvEcho, sampleEnvExit7]
        CancelObs.never).cells.getD i pendCell = pendCell)
    ∧ jobWritesOf (runLoop [sampleStepEcho, sampleStepExit7] [sampleEnvEcho, sampleEnvExit7]
        CancelObs.never).events = [(Status.failed, true)] :=
  c3_halt_on_failure [sampleStepEcho, sampleStepExit7] [sampleEnvEcho, sampleEnvExit7] 1
    (by decide) (by decide) (by decide) (by decide)
    (by
      intro m hm _
      have hm0 : m = 0 := by omega
      subst hm0
      decide)

def sampleStepWithFile : StepRow :=
  { typ := "bash", content := "echo hi", files := [{ name := "a.txt", content := "x" }] }

def sampleEnvFileFail : StepEnv := { fileOk := [false], bashLines := ["hi"], bashExit := 0 }

/-- C4 counterexample: a step whose file-write exec fails but whose bash
exec exits 0 does not end `failed` with output "Failed to create file" —
the canned failure is written but the bash exec still runs and overwrites
the step row with `success` and the bash output, contradicting the claim
that the bash content is not run. -/
theorem c4_counterexample :
    (runLoop [sampleStepWithFile] [sampleEnvFileFail] CancelObs.never).cells.getD 0 pendCell
        = { status := Status.success, output := some "hi\n" }
    ∧ Ev.stepW (StepWrite.setStatusOutput 0 Status.failed "Failed to create file")
        ∈ (runLoop [sampleStepWithFile] [sampleEnvFileFail] CancelObs.never).events
    ∧ Ev.stepW (StepWrite.setStatusOutput 0 Status.success "hi\n")
        ∈ (runLoop [sampleStepWithFile] [sampleEnvFileFail] CancelObs.never).events
    ∧ ({ status := Status.success, output := some "hi\n" } : StepCell)
        ≠ { status := Status.failed, output := some "Failed to create file" } := by
  refine ⟨by decide, by decide, by decide, by decide⟩

/-- C4 (amended): when one of step `k`'s file-write execs exits non-zero,
the loop writes the step failed with output "Failed to create file" and
continues with the step's remaining files — not with the next step: for a
bash step the bash content still runs and its exec result overwrites the
step's status and output (success with the captured output on exit 0,
failed on non-zero exit, which also halts the job); only for a non-bash
step does the canned failure persist; execution continues with the next
step exactly when the step is non-bash or its bash exec exits 0. -/
theorem c4_file_soft_failure_amended (steps : List StepRow) (envs : List StepEnv) (k : Nat)
    (hlen : envs.length = steps.length)
    (hk : k < steps.length)
    (hearlier : ∀ m, m < k → (steps.getD m dStep).typ = "bash" →
        (envs.getD m defaultStepEnv).bashExit = 0)
    (hff : fileFail (steps.getD k dStep).files.length
        (envs.getD k defaultStepEnv).fileOk = true) :
    (Ev.stepW (StepWrite.setStatusOutput k Status.failed "Failed to create file")
        ∈ (runLoop steps envs CancelObs.never).events)
    ∧ ((steps.getD k dStep).typ = "bash" → (envs.getD k defaultStepEnv).bashExit = 0 →
        (runLoop steps envs CancelObs.never).cells.getD k pendCell
          = { status := Status.success,
              output := some (linesOut (envs.getD k defaultStepEnv).bashLines) }
        ∧ (k + 1 < steps.length →
            Ev.stepW (StepWrite.setStatus (k + 1) Status.running)
              ∈ (runLoop steps envs CancelObs.never).events))
    ∧ ((steps.getD k dStep).typ = "bash" → (envs.getD k defaultStepEnv).bashExit ≠ 0 →
        (runLoop steps envs CancelObs.never).cells.getD k pendCell
          = { status := Status.failed,
              output := some (linesOut (envs.getD k defaultStepEnv).bashLines) }
        ∧ (runLoop steps envs CancelObs.never).res = RunResult.stepFailed)
    ∧ (¬ (steps.getD k dStep).typ = "bash" →
        (runLoop steps envs CancelObs.never).cells.getD k pendCell
          = { status := Status.failed, output := some "Failed to create file" }
        ∧ (k + 1 < steps.length →
            Ev.stepW (StepWrite.setStatus (k + 1) Status.running)
              ∈ (runLoop steps envs CancelObs.never).events)) := by
  have h := runStepsFrom_softfail steps envs (initCells steps) 0 k hlen
    (by rw [initCells_length]; simp)
    (fun i _ => initCells_getD steps i)
    hk hearlier hff
  unfold runLoop
  simpa using h

/-- C4 amended, witnessed at the single-step run of
`c4_counterexample`'s input. -/
theorem c4_file_soft_failure_amended_witness :
    (Ev.stepW (StepWrite.setStatusOutput 0 Status.failed "Failed to create file")
        ∈ (runLoop [sampleStepWithFile] [sampleEnvFileFail] CancelObs.never).events)
    ∧ (([sampleStepWithFile].getD 0 dStep).typ = "bash" →
        (([sampleEnvFileFail].getD 0 defaultStepEnv).bashExit = 0) →
        (runLoop [sampleStepWithFile] [sampleEnvFileFail] CancelObs.never).cells.getD 0 pendCell
          = { status := Status.success,
              output := some (linesOut ([sampleEnvFileFail].getD 0 defaultStepEnv).bashLines) }
        ∧ (0 + 1 < [sampleStepWithFile].length →
            Ev.stepW (StepWrite.setStatus (0 + 1) Status.running)
              ∈ (runLoop [sampleStepWithFile] [sampleEnvFileFail] CancelObs.never).events))
    ∧ (([sampleStepWithFile].getD 0 dStep).typ = "bash" →
        (([sampleEnvFileFail].getD 0 defaultStepEnv).bashExit ≠ 0) →
        (runLoop [sampleStepWithFile] [sampleEnvFileFail] CancelObs.never).cells.getD 0 pendCell
          = { status := Status.failed,
              output := some (linesOut ([sampleEnvFileFail].getD 0 defaultStepEnv).bashLines) }
        ∧ (runLoop [sampleStepWithFile] [sampleEnvFileFail] CancelObs.never).res
            = RunResult.stepFailed)
    ∧ (¬ ([sampleStepWithFile].getD 0 dStep).typ = "bash" →
        (runLoop [sampleStepWithFile] [sampleEnvFileFail] CancelObs.never).cells.getD 0 pendCell
          = { status := Status.failed, output := some "Failed to create file" }
        ∧ (0 + 1 < [sampleStepWithFile].length →
            Ev.stepW (StepWrite.setStatus (0 + 1) Status.running)
              ∈ (runLoop [sampleStepWithFile] [sampleEnvFileFail] CancelObs.never).events)) :=
  c4_file_soft_failure_amended [sampleStepWithFile] [sampleEnvFileFail] 0
    (by decide) (by decide)
    (by intro m hm; omega)
    (by decide)

/-- A container workspace tar stream holding one regular source file. -/
def sampleTar : List TarFile := [{ path := ["workspace", "main.go"], content := "package main" }]

/-- C5: evaluating `handleArtifacts` on a workspace with one regular file.
`extractTar` (worker.go:1315-1340) writes the tar stream to
`{dst}/temp.tar` and deletes it without unpacking anything — despite its
own doc comment "extracts tar archive to destination directory" — so
`{tempDir}/workspace` stays empty and the zip archive gets no entries,
while the claimed behavior would put `workspace/main.go` in it; only the
returned zip path matches the claim. -/
theorem c5_artifacts_zip_empty :
    (handleArtifacts [] sampleTar 1 "app").zipEntries = []
    ∧ (handleArtifacts [] sampleTar 1 "app").zipPath
        = ["tmp", "rapidflow-job-1", "app-artifacts.zip"]
    ∧ claimedArtifactsZipEntries sampleTar = [(["workspace", "main.go"], "package main")]
    ∧ claimedArtifactsZipEntries sampleTar ≠ [] := by
  refine ⟨rfl, rfl, rfl, by decide⟩

theorem mem_runnableRemovals (rs : List RunnableDb) (e : SweepEv) :
    e ∈ runnableRemovals rs ↔
      ∃ r ∈ rs, r.configContainerName ≠ "" ∧ e = SweepEv.removeByName r.configContainerName := by
  induction rs with
  | nil => simp [runnableRemovals]
  | cons r rest ih =>
    unfold runnableRemovals at ih ⊢
    by_cases hr : r.configContainerName = ""
    · simp only [List.foldr_cons, hr, if_pos, ite_true, List.nil_append]
      rw [ih]
      constructor
      · intro ⟨r2, hm, hp⟩
        exact ⟨r2, List.mem_cons_of_mem r hm, hp⟩
      · intro ⟨r2, hm, hne, he⟩
        rcases List.mem_cons.mp hm with h2 | h2
        · rw [h2] at hne
          exact absurd hr hne
        · exact ⟨r2, h2, hne, he⟩
    · simp only [List.foldr_cons, hr, if_neg, ite_false, List.singleton_append]
      rw [List.mem_cons, ih]
      constructor
      · intro h
        rcases h with h | ⟨r2, hm, hp⟩
        · exact ⟨r, List.mem_cons_self r rest, hr, h⟩
        · exact ⟨r2, List.mem_cons_of_mem r hm, hp⟩
      · intro ⟨r2, hm, hne, he⟩
        rcases List.mem_cons.mp hm with h2 | h2
        · rw [h2] at he
          exact Or.inl he
        · exact Or.inr ⟨r2, h2, hne, he⟩

theorem removeByName_mem_stopPipelineJob (jd : JobDb) (n : String) :
    SweepEv.removeByName n ∈ stopPipelineJob jd ↔
      SweepEv.removeByName n ∈ runnableRemovals jd.runnables := by
  unfold stopPipelineJob CleanupJobResources
  constructor
  · intro h
    rcases List.mem_append.mp h with h | h
    · rcases List.mem_append.mp h with h | h
      · rcases List.mem_append.mp h with h | h
        · rcases List.mem_cons.mp h with h | h
          · exact SweepEv.noConfusion h
          · simp at h
        · exact h
      · by_cases h1 : (jd.containerId).getD "" = "" <;>
          by_cases h2 : (jd.tempDir).getD "" = "" <;>
          simp [h1, h2] at h
    · rcases List.mem_cons.mp h with h | h
      · exact SweepEv.noConfusion h
      · simp at h
  · intro h
    exact List.mem_append.mpr (Or.inl (List.mem_append.mpr
      (Or.inl (List.mem_append.mpr (Or.inr h)))))

/-- C10: the stop-pipeline sweep removes runnable containers by name only
for runnables whose stored config carries a non-empty `container_name`;
consequently a `docker_container` runnable that was started under the
engine's default name (chosen by `handleDockerContainer` when the config's
`container_name` is empty) is not removed by the sweep, as long as no
stored config happens to carry exactly that default name. -/
theorem c10_stop_pipeline_by_name (jd : JobDb) (nm : String)
    (hnone : ∀ r ∈ jd.runnables, r.configContainerName ≠ chosenContainerName "" jd.id nm) :
    (∀ n, SweepEv.removeByName n ∈ stopPipelineJob jd →
        ∃ r ∈ jd.runnables, r.configContainerName = n ∧ n ≠ "")
    ∧ SweepEv.removeByName (chosenContainerName "" jd.id nm) ∉ stopPipelineJob jd := by
  constructor
  · intro n hmem
    obtain ⟨r, hr, hne, he⟩ :=
      (mem_runnableRemovals jd.runnables _).mp
        ((removeByName_mem_stopPipelineJob jd n).mp hmem)
    have h3 : r.configContainerName = n := by
      injection he with h2
      exact h2.symm
    exact ⟨r, hr, h3, by rw [← h3]; exact hne⟩
  · intro hmem
    obtain ⟨r, hr, _, he⟩ :=
      (mem_runnableRemovals jd.runnables _).mp
        ((removeByName_mem_stopPipelineJob jd _).mp hmem)
    have h3 : r.configContainerName = chosenContainerName "" jd.id nm := by
      injection he with h2
      exact h2.symm
    exact hnone r hr h3

/-- A job row for the sweep with one default-named runnable (empty stored
container_name) and one explicitly named runnable. -/
def sampleJobDbRunnables : JobDb :=
  { id := 1, status := Status.success, tempDir := some "/tmp/rapidflow-repo-1",
    containerId := some "c1",
    runnables := [{ configContainerName := "" }, { configContainerName := "my-run" }] }

/-- C10 witnessed: on the concrete job, every by-name removal stems from a
non-empty stored name, and the default name `rapidflow-run-1-web` is not
removed. -/
theorem c10_stop_pipeline_by_name_witness :
    (∀ n, SweepEv.removeByName n ∈ stopPipelineJob sampleJobDbRunnables →
        ∃ r ∈ sampleJobDbRunnables.runnables, r.configContainerName = n ∧ n ≠ "")
    ∧ SweepEv.removeByName (chosenContainerName "" sampleJobDbRunnables.id "web")
        ∉ stopPipelineJob sampleJobDbRunnables :=
  c10_stop_pipeline_by_name sampleJobDbRunnables "web" (by decide)

/-! ### Runnables-phase analysis -/

/-- The runnable position an event of the runnables phase belongs to. -/
def rIndex : REv → Nat
  | REv.setRunnableStatus i _ _ => i
  | REv.setRunnableSuccess i _ => i
  | REv.deployCall i _ => i
  | REv.setDeploymentStatus i _ _ _ => i

/-- Whether an event writes the `runnables` row. -/
def isRunnableWrite : REv → Bool
  | REv.setRunnableStatus _ _ _ => true
  | REv.setRunnableSuccess _ _ => true
  | _ => false

/-- The status of runnable `i` after replaying a trace (last write wins),
`none` when never written. -/
def statusFoldStep (i : Nat) (acc : Option Status) (e : REv) : Option Status :=
  match e with
  | REv.setRunnableStatus i2 s _ => if i2 = i then some s else acc
  | REv.setRunnableSuccess i2 _ => if i2 = i then some Status.success else acc
  | _ => acc

def finalRunnableStatus (tr : List REv) (i : Nat) : Option Status :=
  tr.foldl (statusFoldStep i) none

/-- The last `runnables`-row write of runnable `i` in a trace. -/
def writeFoldStep (i : Nat) (acc : Option REv) (e : REv) : Option REv :=
  match e with
  | REv.setRunnableStatus i2 _ _ => if i2 = i then some e else acc
  | REv.setRunnableSuccess i2 _ => if i2 = i then some e else acc
  | _ => acc

def lastRunnableWrite (tr : List REv) (i : Nat) : Option REv :=
  tr.foldl (writeFoldStep i) none

theorem processDeployments_index (i j : Nat) (ds : List DeployCase) :
    ∀ e ∈ processDeployments i j ds, rIndex e = i ∧ isRunnableWrite e = false := by
  induction ds generalizing j with
  | nil =>
    intro e he
    simp [processDeployments] at he
  | cons d rest ih =>
    intro e he
    unfold processDeployments at he
    rcases List.mem_append.mp he with h | h
    · by_cases hf : d.found
      · by_cases hd : d.deployOk <;> simp [hf, hd] at h <;>
          rcases h with h | h <;> rw [h] <;> exact ⟨rfl, rfl⟩
      · simp [hf] at h
        rw [h]
        exact ⟨rfl, rfl⟩
    · exact ih (j + 1) e h

theorem processRunnable_index (i : Nat) (c : RunnableCase) :
    ∀ e ∈ processRunnable i c, rIndex e = i := by
  intro e he
  unfold processRunnable at he
  rcases List.mem_cons.mp he with h | h
  · rw [h]; rfl
  · cases hp : c.prod with
    | failure msg => rw [hp] at h; simp at h
    | success url =>
      rw [hp] at h
      rcases List.mem_cons.mp h with h2 | h2
      · rw [h2]; rfl
      · exact (processDeployments_index i 0 c.deps e h2).1

theorem processRunnablesFrom_index (cs : List RunnableCase) :
    ∀ (n : Nat) (e : REv), e ∈ processRunnablesFrom n cs → n ≤ rIndex e := by
  induction cs with
  | nil =>
    intro n e he
    simp [processRunnablesFrom] at he
  | cons c rest ih =>
    intro n e he
    unfold processRunnablesFrom at he
    rcases List.mem_append.mp he with h | h
    · rcases List.mem_append.mp h with h2 | h2
      · rw [processRunnable_index n c e h2]
      · cases hp : c.prod with
        | failure msg =>
          rw [hp] at h2
          rcases List.mem_cons.mp h2 with h3 | h3
          · rw [h3]; rfl
          · simp at h3
        | success url => rw [hp] at h2; simp at h2
    · have := ih (n + 1) e h
      omega

/-- Folding a status (or last-write) accumulator over events that never
touch runnable `i` leaves it unchanged. -/
theorem statusFold_untouched (tr : List REv) (i : Nat)
    (h : ∀ e ∈ tr, rIndex e ≠ i) :
    ∀ acc, tr.foldl (statusFoldStep i) acc = acc := by
  induction tr with
  | nil => intro acc; rfl
  | cons e rest ih =>
    intro acc
    have he := h e (List.mem_cons_self e rest)
    have hstep : statusFoldStep i acc e = acc := by
      cases e <;> simp [statusFoldStep] <;> intro hh <;>
        exact absurd hh (by simpa [rIndex] using he)
    rw [List.foldl_cons, hstep]
    exact ih (fun e2 h2 => h e2 (List.mem_cons_of_mem e h2)) acc

theorem writeFold_untouched (tr : List REv) (i : Nat)
    (h : ∀ e ∈ tr, rIndex e ≠ i) :
    ∀ acc, tr.foldl (writeFoldStep i) acc = acc := by
  induction tr with
  | nil => intro acc; rfl
  | cons e rest ih =>
    intro acc
    have he := h e (List.mem_cons_self e rest)
    have hstep : writeFoldStep i acc e = acc := by
      cases e <;> simp [writeFoldStep] <;> intro hh <;>
        exact absurd hh (by simpa [rIndex] using he)
    rw [List.foldl_cons, hstep]
    exact ih (fun e2 h2 => h e2 (List.mem_cons_of_mem e h2)) acc

/-- Deployment events never write the `runnables` row, so they do not move
the status fold. -/
theorem statusFold_deployments (i i2 j : Nat) (ds : List DeployCase) :
    ∀ acc, (processDeployments i2 j ds).foldl (statusFoldStep i) acc = acc := by
  induction ds generalizing j with
  | nil => intro acc; rfl
  | cons d rest ih =>
    intro acc
    unfold processDeployments
    rw [List.foldl_append]
    by_cases hf : d.found
    · by_cases hd : d.deployOk <;> simp only [hf, hd, Bool.not_true, ite_true, ite_false,
        Bool.false_eq_true, if_false, if_true] <;> exact ih (j + 1) acc
    · simp only [hf, Bool.not_false, Bool.false_eq_true, if_false, ite_true, ite_false]
      exact ih (j + 1) acc

theorem writeFold_deployments (i i2 j : Nat) (ds : List DeployCase) :
    ∀ acc, (processDeployments i2 j ds).foldl (writeFoldStep i) acc = acc := by
  induction ds generalizing j with
  | nil => intro acc; rfl
  | cons d rest ih =>
    intro acc
    unfold processDeployments
    rw [List.foldl_append]
    by_cases hf : d.found
    · by_cases hd : d.deployOk <;> simp only [hf, hd, Bool.not_true, ite_true, ite_false,
        Bool.false_eq_true, if_false, if_true] <;> exact ih (j + 1) acc
    · simp only [hf, Bool.not_false, Bool.false_eq_true, if_false, ite_true, ite_false]
      exact ih (j + 1) acc

theorem processRunnablesFrom_cons_fail (n : Nat) (c0 : RunnableCase)
    (rest : List RunnableCase) (emsg : String)
    (hf : c0.prod = ProdResult.failure emsg) :
    processRunnablesFrom n (c0 :: rest) =
      [REv.setRunnableStatus n Status.running none,
        REv.setRunnableStatus n Status.failed (some emsg)]
      ++ processRunnablesFrom (n + 1) rest := by
  obtain ⟨prod, deps⟩ := c0
  have hp : prod = ProdResult.failure emsg := hf
  subst hp
  rfl

theorem processRunnablesFrom_cons_success (n : Nat) (c0 : RunnableCase)
    (rest : List RunnableCase) (url : String)
    (hs : c0.prod = ProdResult.success url) :
    processRunnablesFrom n (c0 :: rest) =
      (REv.setRunnableStatus n Status.running none :: REv.setRunnableSuccess n url ::
        processDeployments n 0 c0.deps)
      ++ processRunnablesFrom (n + 1) rest := by
  obtain ⟨prod, deps⟩ := c0
  have hp : prod = ProdResult.success url := hs
  subst hp
  show ((REv.setRunnableStatus n Status.running none :: REv.setRunnableSuccess n url ::
      processDeployments n 0 deps) ++ []) ++ processRunnablesFrom (n + 1) rest = _
  rw [List.append_nil]

/-- The events of one runnable's segment all carry that runnable's
position. -/
theorem successSeg_index (n : Nat) (url : String) (ds : List DeployCase) :
    ∀ e ∈ (REv.setRunnableStatus n Status.running none :: REv.setRunnableSuccess n url ::
        processDeployments n 0 ds), rIndex e = n := by
  intro e he
  rcases List.mem_cons.mp he with h | h
  · rw [h]; rfl
  · rcases List.mem_cons.mp h with h2 | h2
    · rw [h2]; rfl
    · exact (processDeployments_index n 0 ds e h2).1

/-- A runnable whose producer failed: its last `runnables`-row write is
the failed write carrying the error text, its final status is failed, and
none of its deployments is ever invoked. -/
theorem processRunnablesFrom_fail_spec (cs : List RunnableCase) :
    ∀ (n i0 : Nat) (c : RunnableCase) (emsg : String),
    cs.get? i0 = some c → c.prod = ProdResult.failure emsg →
    lastRunnableWrite (processRunnablesFrom n cs) (n + i0)
        = some (REv.setRunnableStatus (n + i0) Status.failed (some emsg))
    ∧ finalRunnableStatus (processRunnablesFrom n cs) (n + i0) = some Status.failed
    ∧ ∀ jd, REv.deployCall (n + i0) jd ∉ processRunnablesFrom n cs := by
  induction cs with
  | nil =>
    intro n i0 c emsg hget
    simp at hget
  | cons c0 rest ih =>
    intro n i0 c emsg hget hfail
    cases i0 with
    | zero =>
      rw [Nat.add_zero]
      have hc0 : c0 = c := by simpa using hget
      have hfail0 : c0.prod = ProdResult.failure emsg := by rw [hc0]; exact hfail
      rw [processRunnablesFrom_cons_fail n c0 rest emsg hfail0]
      have hrec_ne : ∀ e ∈ processRunnablesFrom (n + 1) rest, rIndex e ≠ n := by
        intro e he
        have := processRunnablesFrom_index rest (n + 1) e he
        omega
      refine ⟨?_, ?_, ?_⟩
      · unfold lastRunnableWrite
        rw [List.foldl_append]
        have hinner : List.foldl (writeFoldStep n) none
            [REv.setRunnableStatus n Status.running none,
              REv.setRunnableStatus n Status.failed (some emsg)]
            = some (REv.setRunnableStatus n Status.failed (some emsg)) := by
          simp [writeFoldStep]
        rw [hinner]
        exact writeFold_untouched _ n hrec_ne _
      · unfold finalRunnableStatus
        rw [List.foldl_append]
        have hinner : List.foldl (statusFoldStep n) none
            [REv.setRunnableStatus n Status.running none,
              REv.setRunnableStatus n Status.failed (some emsg)]
            = some Status.failed := by
          simp [statusFoldStep]
        rw [hinner]
        exact statusFold_untouched _ n hrec_ne _
      · intro jd hmem
        rcases List.mem_append.mp hmem with h | h
        · rcases List.mem_cons.mp h with h2 | h2
          · exact REv.noConfusion h2
          · rcases List.mem_cons.mp h2 with h3 | h3
            · exact REv.noConfusion h3
            · simp at h3
        · exact hrec_ne _ h rfl
    | succ k =>
      have hget2 : rest.get? k = some c := by simpa using hget
      have hr := ih (n + 1) k c emsg hget2 hfail
      have harith : n + (k + 1) = n + 1 + k := by omega
      rw [harith]
      have htarget_ne : n + 1 + k ≠ n := by omega
      cases hp : c0.prod with
      | failure e0 =>
        rw [processRunnablesFrom_cons_fail n c0 rest e0 hp]
        have hseg_ne : ∀ e ∈ [REv.setRunnableStatus n Status.running none,
            REv.setRunnableStatus n Status.failed (some e0)], rIndex e ≠ n + 1 + k := by
          intro e he
          rcases List.mem_cons.mp he with h | h
          · rw [h]; simpa [rIndex] using htarget_ne.symm
          · rcases List.mem_cons.mp h with h2 | h2
            · rw [h2]; simpa [rIndex] using htarget_ne.symm
            · simp at h2
        refine ⟨?_, ?_, ?_⟩
        · unfold lastRunnableWrite
          rw [List.foldl_append, writeFold_untouched _ _ hseg_ne]
          exact hr.1
        · unfold finalRunnableStatus
          rw [List.foldl_append, statusFold_untouched _ _ hseg_ne]
          exact hr.2.1
        · intro jd hmem
          rcases List.mem_append.mp hmem with h | h
          · exact hseg_ne _ h rfl
          · exact hr.2.2 jd h
      | success url =>
        rw [processRunnablesFrom_cons_success n c0 rest url hp]
        have hseg_ne : ∀ e ∈ (REv.setRunnableStatus n Status.running none ::
            REv.setRunnableSuccess n url :: processDeployments n 0 c0.deps),
            rIndex e ≠ n + 1 + k := by
          intro e he
          rw [successSeg_index n url c0.deps e he]
          omega
        refine ⟨?_, ?_, ?_⟩
        · unfold lastRunnableWrite
          rw [List.foldl_append, writeFold_untouched _ _ hseg_ne]
          exact hr.1
        · unfold finalRunnableStatus
          rw [List.foldl_append, statusFold_untouched _ _ hseg_ne]
          exact hr.2.1
        · intro jd hmem
          rcases List.mem_append.mp hmem with h | h
          · exact hseg_ne _ h rfl
          · exact hr.2.2 jd h

/-- Every runnable of the phase gets its `running` write: a failed
runnable does not stop the loop. -/
theorem processRunnablesFrom_all_running (cs : List RunnableCase) :
    ∀ (n k : Nat), k < cs.length →
      REv.setRunnableStatus (n + k) Status.running none ∈ processRunnablesFrom n cs := by
  induction cs with
  | nil =>
    intro n k hk
    simp at hk
  | cons c0 rest ih =>
    intro n k hk
    cases k with
    | zero =>
      rw [Nat.add_zero]
      cases hp : c0.prod with
      | failure e0 =>
        rw [processRunnablesFrom_cons_fail n c0 rest e0 hp]
        exact List.mem_append.mpr (Or.inl (List.mem_cons_self _ _))
      | success url =>
        rw [processRunnablesFrom_cons_success n c0 rest url hp]
        exact List.mem_append.mpr (Or.inl (List.mem_cons_self _ _))
    | succ k2 =>
      have hk2 : k2 < rest.length := by simpa using hk
      have hmem := ih (n + 1) k2 hk2
      have harith : n + (k2 + 1) = n + 1 + k2 := by omega
      rw [harith]
      cases hp : c0.prod with
      | failure e0 =>
        rw [processRunnablesFrom_cons_fail n c0 rest e0 hp]
        exact List.mem_append.mpr (Or.inr hmem)
      | success url =>
        rw [processRunnablesFrom_cons_success n c0 rest url hp]
        exact List.mem_append.mpr (Or.inr hmem)

/-- C6: a runnable whose producer fails is written failed with the error
text as its output (and that is its last runnables-row write), none of its
deployments is invoked, the loop still starts every other runnable in
declared order, and the job's status stays at the `success` the executor
wrote before the runnables phase — a producer failure never fails the
job. -/
theorem c6_runnable_failure_isolated (cs : List RunnableCase) (i : Nat) (c : RunnableCase)
    (emsg : String)
    (hget : cs.get? i = some c)
    (hfail : c.prod = ProdResult.failure emsg) :
    lastRunnableWrite (processRunnables cs) i
        = some (REv.setRunnableStatus i Status.failed (some emsg))
    ∧ finalRunnableStatus (processRunnables cs) i = some Status.failed
    ∧ (∀ jd, REv.deployCall i jd ∉ processRunnables cs)
    ∧ (∀ k, k < cs.length → REv.setRunnableStatus k Status.running none ∈ processRunnables cs)
    ∧ (∀ (j : JobRow) (infra : Infra) (steps : List StepRow) (envs : List StepEnv)
          (cancel : CancelObs),
        (Status.success, true) ∈
            jobWritesOf (RunJobWithContext j infra steps envs cs cancel).events →
        queueFinalStatus j infra steps envs cs cancel = Status.success) := by
  unfold processRunnables
  have h := processRunnablesFrom_fail_spec cs 0 i c emsg hget hfail
  simp only [Nat.zero_add] at h
  refine ⟨h.1, h.2.1, h.2.2, ?_, ?_⟩
  · intro k hk
    have := processRunnablesFrom_all_running cs 0 k hk
    simpa using this
  · intro j infra steps envs cancel hsucc
    rcases runJob_shape j infra steps envs cs cancel with ⟨hw, hok⟩ | ⟨hw, hok⟩
      | ⟨hw, hok⟩ | ⟨hw, hok⟩ | ⟨hw, hok⟩ <;> rw [hw] at hsucc
    · simp at hsucc
    · simp at hsucc
    · simp at hsucc
    · simp at hsucc
    · unfold queueFinalStatus queueJobWrites
      simp only [hok, hw]
      simp

def sampleRunnableFail : RunnableCase :=
  { prod := ProdResult.failure "copy failed", deps := [{ found := true, deployOk := true, errMsg := "" }] }

def sampleRunnableOk : RunnableCase :=
  { prod := ProdResult.success "zipA",
    deps := [{ found := true, deployOk := false, errMsg := "unreachable" }] }

/-- C6 witnessed at a two-runnable phase whose first producer fails. -/
theorem c6_runnable_failure_isolated_witness :
    lastRunnableWrite (processRunnables [sampleRunnableFail, sampleRunnableOk]) 0
        = some (REv.setRunnableStatus 0 Status.failed (some "copy failed"))
    ∧ finalRunnableStatus (processRunnables [sampleRunnableFail, sampleRunnableOk]) 0
        = some Status.failed
    ∧ (∀ jd, REv.deployCall 0 jd ∉ processRunnables [sampleRunnableFail, sampleRunnableOk])
    ∧ (∀ k, k < [sampleRunnableFail, sampleRunnableOk].length →
        REv.setRunnableStatus k Status.running none
          ∈ processRunnables [sampleRunnableFail, sampleRunnableOk])
    ∧ (∀ (j : JobRow) (infra : Infra) (steps : List StepRow) (envs : List StepEnv)
          (cancel : CancelObs),
        (Status.success, true) ∈
            jobWritesOf (RunJobWithContext j infra steps envs
              [sampleRunnableFail, sampleRunnableOk] cancel).events →
        queueFinalStatus j infra steps envs [sampleRunnableFail, sampleRunnableOk] cancel
          = Status.success) :=
  c6_runnable_failure_isolated [sampleRunnableFail, sampleRunnableOk] 0 sampleRunnableFail
    "copy failed" (by decide) rfl

def upd (f : Nat → Option Status) (i : Nat) (s : Status) : Nat → Option Status :=
  fun k => if k = i then some s else f k

def updB (f : Nat → Bool) (i : Nat) : Nat → Bool :=
  fun k => if k = i then true else f k

/-- Trace checker for deployment gating: replaying the runnables-phase
trace with the current runnable statuses (`st`) and artifact-persisted
flags (`art`), every provider `Deploy` call and every deployment
settlement to success/failed must find the owning runnable at `success`
with its artifact persisted. -/
def gatedOk : List REv → (Nat → Option Status) → (Nat → Bool) → Bool
  | [], _, _ => true
  | REv.setRunnableStatus i s _ :: rest, st, art => gatedOk rest (upd st i s) art
  | REv.setRunnableSuccess i _ :: rest, st, art =>
      gatedOk rest (upd st i Status.success) (updB art i)
  | REv.deployCall i _ :: rest, st, art =>
      (decide (st i = some Status.success) && art i) && gatedOk rest st art
  | REv.setDeploymentStatus i _ s _ :: rest, st, art =>
      (if s = Status.success ∨ s = Status.failed then
        decide (st i = some Status.success) && art i
      else true) && gatedOk rest st art

/-- Runnable statuses after replaying a trace. -/
def stAfter : List REv → (Nat → Option Status) → (Nat → Option Status)
  | [], st => st
  | REv.setRunnableStatus i s _ :: rest, st => stAfter rest (upd st i s)
  | REv.setRunnableSuccess i _ :: rest, st => stAfter rest (upd st i Status.success)
  | REv.deployCall _ _ :: rest, st => stAfter rest st
  | REv.setDeploymentStatus _ _ _ _ :: rest, st => stAfter rest st

/-- Artifact-persisted flags after replaying a trace. -/
def artAfter : List REv → (Nat → Bool) → (Nat → Bool)
  | [], art => art
  | REv.setRunnableStatus _ _ _ :: rest, art => artAfter rest art
  | REv.setRunnableSuccess i _ :: rest, art => artAfter rest (updB art i)
  | REv.deployCall _ _ :: rest, art => artAfter rest art
  | REv.setDeploymentStatus _ _ _ _ :: rest, art => artAfter rest art

theorem gatedOk_append (a b : List REv) :
    ∀ (st : Nat → Option Status) (art : Nat → Bool),
    gatedOk (a ++ b) st art = (gatedOk a st art && gatedOk b (stAfter a st) (artAfter a art)) := by
  induction a with
  | nil => intro st art; simp [gatedOk, stAfter, artAfter]
  | cons e rest ih =>
    intro st art
    cases e <;> simp only [List.cons_append, gatedOk, stAfter, artAfter, List.append_eq, ih,
      Bool.and_assoc]

theorem stAfter_append (a b : List REv) :
    ∀ st, stAfter (a ++ b) st = stAfter b (stAfter a st) := by
  induction a with
  | nil => intro st; rfl
  | cons e rest ih =>
    intro st
    cases e <;> simp only [List.cons_append, stAfter, List.append_eq, ih]

theorem artAfter_append (a b : List REv) :
    ∀ art, artAfter (a ++ b) art = artAfter b (artAfter a art) := by
  induction a with
  | nil => intro art; rfl
  | cons e rest ih =>
    intro art
    cases e <;> simp only [List.cons_append, artAfter, List.append_eq, ih]

theorem stAfter_deployments (i j : Nat) (ds : List DeployCase) :
    ∀ st, stAfter (processDeployments i j ds) st = st := by
  induction ds generalizing j with
  | nil => intro st; rfl
  | cons d rest ih =>
    intro st
    unfold processDeployments
    rw [stAfter_append]
    by_cases hf : d.found
    · by_cases hd : d.deployOk <;> simp only [hf, hd, Bool.not_true, ite_true, ite_false,
        Bool.false_eq_true, if_false, if_true, stAfter] <;> exact ih (j + 1) st
    · simp only [hf, Bool.false_eq_true, if_false, ite_true, ite_false, stAfter]
      exact ih (j + 1) st

theorem artAfter_deployments (i j : Nat) (ds : List DeployCase) :
    ∀ art, artAfter (processDeployments i j ds) art = art := by
  induction ds generalizing j with
  | nil => intro art; rfl
  | cons d rest ih =>
    intro art
    unfold processDeployments
    rw [artAfter_append]
    by_cases hf : d.found
    · by_cases hd : d.deployOk <;> simp only [hf, hd, Bool.not_true, ite_true, ite_false,
        Bool.false_eq_true, if_false, if_true, artAfter] <;> exact ih (j + 1) art
    · simp only [hf, Bool.false_eq_true, if_false, ite_true, ite_false, artAfter]
      exact ih (j + 1) art

theorem gatedOk_deployments (i j : Nat) (ds : List DeployCase)
    (st : Nat → Option Status) (art : Nat → Bool)
    (hst : st i = some Status.success) (hart : art i = true) :
    gatedOk (processDeployments i j ds) st art = true := by
  induction ds generalizing j with
  | nil => rfl
  | cons d rest ih =>
    unfold processDeployments
    rw [gatedOk_append]
    by_cases hf : d.found
    · by_cases hd : d.deployOk <;>
        simp only [hf, hd, Bool.not_true, ite_true, ite_false, Bool.false_eq_true,
          if_false, if_true, gatedOk, stAfter, artAfter, hst, hart] <;>
        simp [ih (j + 1)]
    · simp only [hf, Bool.false_eq_true, if_false, ite_true, ite_false, gatedOk,
        stAfter, artAfter, hst, hart]
      simp [ih (j + 1)]

/-- Deployment gating holds on every runnables-phase trace, from any
starting state. -/
theorem gatedOk_processRunnablesFrom (cs : List RunnableCase) :
    ∀ (n : Nat) (st : Nat → Option Status) (art : Nat → Bool),
    gatedOk (processRunnablesFrom n cs) st art = true := by
  induction cs with
  | nil => intro n st art; rfl
  | cons c0 rest ih =>
    intro n st art
    cases hp : c0.prod with
    | failure e0 =>
      rw [processRunnablesFrom_cons_fail n c0 rest e0 hp]
      simp only [List.cons_append, List.nil_append, gatedOk]
      exact ih (n + 1) _ _
    | success url =>
      rw [processRunnablesFrom_cons_success n c0 rest url hp]
      simp only [List.cons_append, gatedOk, List.append_eq]
      rw [gatedOk_append]
      have hst : (upd (upd st n Status.running) n Status.success) n = some Status.success := by
        simp [upd]
      have hart : (updB art n) n = true := by simp [updB]
      rw [gatedOk_deployments n 0 c0.deps _ _ hst hart]
      rw [ih (n + 1) _ _]
      rfl

/-- Every provider call in a trace belongs to a runnable whose final
status in that same trace is `success`. -/
def deploysFinalOk (tr : List REv) : Bool :=
  tr.all (fun e => match e with
    | REv.deployCall i _ => decide (finalRunnableStatus tr i = some Status.success)
    | _ => true)

/-- A `Deploy` call can only stem from a runnable whose producer
succeeded. -/
theorem deployCall_mem_spec (cs : List RunnableCase) :
    ∀ (n i jd : Nat), REv.deployCall i jd ∈ processRunnablesFrom n cs →
      ∃ i0 c url, cs.get? i0 = some c ∧ i = n + i0 ∧ c.prod = ProdResult.success url := by
  induction cs with
  | nil =>
    intro n i jd hmem
    simp [processRunnablesFrom] at hmem
  | cons c0 rest ih =>
    intro n i jd hmem
    cases hp : c0.prod with
    | failure e0 =>
      rw [processRunnablesFrom_cons_fail n c0 rest e0 hp] at hmem
      rcases List.mem_append.mp hmem with h | h
      · rcases List.mem_cons.mp h with h2 | h2
        · exact REv.noConfusion h2
        · rcases List.mem_cons.mp h2 with h3 | h3
          · exact REv.noConfusion h3
          · simp at h3
      · obtain ⟨i0, c, url, hget, hi, hpp⟩ := ih (n + 1) i jd h
        exact ⟨i0 + 1, c, url, by simpa using hget, by omega, hpp⟩
    | success url =>
      rw [processRunnablesFrom_cons_success n c0 rest url hp] at hmem
      rcases List.mem_append.mp hmem with h | h
      · rcases List.mem_cons.mp h with h2 | h2
        · exact REv.noConfusion h2
        · rcases List.mem_cons.mp h2 with h3 | h3
          · exact REv.noConfusion h3
          · have := (processDeployments_index n 0 c0.deps _ h3).1
            have hi : i = n := by simpa [rIndex] using this
            exact ⟨0, c0, url, by simp, by omega, hp⟩
      · obtain ⟨i0, c, url2, hget, hi, hpp⟩ := ih (n + 1) i jd h
        exact ⟨i0 + 1, c, url2, by simpa using hget, by omega, hpp⟩

/-- A runnable whose producer succeeded ends the phase with status
`success`. -/
theorem processRunnablesFrom_success_status (cs : List RunnableCase) :
    ∀ (n i0 : Nat) (c : RunnableCase) (url : String),
    cs.get? i0 = some c → c.prod = ProdResult.success url →
    finalRunnableStatus (processRunnablesFrom n cs) (n + i0) = some Status.success := by
  induction cs with
  | nil =>
    intro n i0 c url hget
    simp at hget
  | cons c0 rest ih =>
    intro n i0 c url hget hsucc
    cases i0 with
    | zero =>
      rw [Nat.add_zero]
      have hc0 : c0 = c := by simpa using hget
      have hsucc0 : c0.prod = ProdResult.success url := by rw [hc0]; exact hsucc
      rw [processRunnablesFrom_cons_success n c0 rest url hsucc0]
      have hrec_ne : ∀ e ∈ processRunnablesFrom (n + 1) rest, rIndex e ≠ n := by
        intro e he
        have := processRunnablesFrom_index rest (n + 1) e he
        omega
      unfold finalRunnableStatus
      rw [List.foldl_append]
      have hinner : List.foldl (statusFoldStep n) none
          (REv.setRunnableStatus n Status.running none :: REv.setRunnableSuccess n url ::
            processDeployments n 0 c0.deps) = some Status.success := by
        simp only [List.foldl_cons]
        have h1 : statusFoldStep n none (REv.setRunnableStatus n Status.running none)
            = some Status.running := by simp [statusFoldStep]
        have h2 : statusFoldStep n (some Status.running) (REv.setRunnableSuccess n url)
            = some Status.success := by simp [statusFoldStep]
        rw [h1, h2]
        exact statusFold_deployments n n 0 c0.deps _
      rw [hinner]
      exact statusFold_untouched _ n hrec_ne _
    | succ k =>
      have hget2 : rest.get? k = some c := by simpa using hget
      have hr := ih (n + 1) k c url hget2 hsucc
      have harith : n + (k + 1) = n + 1 + k := by omega
      rw [harith]
      cases hp : c0.prod with
      | failure e0 =>
        rw [processRunnablesFrom_cons_fail n c0 rest e0 hp]
        have hseg_ne : ∀ e ∈ [REv.setRunnableStatus n Status.running none,
            REv.setRunnableStatus n Status.failed (some e0)], rIndex e ≠ n + 1 + k := by
          intro e he
          rcases List.mem_cons.mp he with h | h
          · rw [h]; simp [rIndex]; omega
          · rcases List.mem_cons.mp h with h2 | h2
            · rw [h2]; simp [rIndex]; omega
            · simp at h2
        unfold finalRunnableStatus
        rw [List.foldl_append, statusFold_untouched _ _ hseg_ne]
        exact hr
      | success url2 =>
        rw [processRunnablesFrom_cons_success n c0 rest url2 hp]
        have hseg_ne : ∀ e ∈ (REv.setRunnableStatus n Status.running none ::
            REv.setRunnableSuccess n url2 :: processDeployments n 0 c0.deps),
            rIndex e ≠ n + 1 + k := by
          intro e he
          rw [successSeg_index n url2 c0.deps e he]
          omega
        unfold finalRunnableStatus
        rw [List.foldl_append, statusFold_untouched _ _ hseg_ne]
        exact hr

/-- C7: on every runnables-phase trace, a provider `Deploy` call or a
deployment settlement to success/failed happens only while the owning
runnable's row reads `success` with its artifact_url persisted, and every
invoked deployment belongs to a runnable whose final status is `success` —
equivalently, the pending deployments of a runnable that did not reach
`success` are never executed. -/
theorem c7_deployment_gating (cs : List RunnableCase) :
    gatedOk (processRunnables cs) (fun _ => none) (fun _ => false) = true
    ∧ deploysFinalOk (processRunnables cs) = true := by
  refine ⟨gatedOk_processRunnablesFrom cs 0 _ _, ?_⟩
  unfold deploysFinalOk
  rw [List.all_eq_true]
  intro e he
  cases e with
  | deployCall i jd =>
    obtain ⟨i0, c, url, hget, hi, hp⟩ := deployCall_mem_spec cs 0 i jd he
    have := processRunnablesFrom_success_status cs 0 i0 c url hget hp
    simp only [Nat.zero_add] at this
    subst hi
    simp only [Nat.zero_add]
    rw [decide_eq_true_eq]
    exact this
  | setRunnableStatus i s out => rfl
  | setRunnableSuccess i url => rfl
  | setDeploymentStatus i jd s out => rfl

/-! ### Resource-cleanup analysis (worker.go:410-426, 590-597) -/

/-- The event constructors one executor run can emit: job/step writes, the
clone-dir mkdir, the temp-dir/language/version/container_id row updates,
the artifacts dir mkdir and its deferred removal, and — for non-temporary
jobs only — the deferred container removal.  `Ev.removeDirRepoTemp` is
absent: no run path removes the clone dir. -/
def benignEv (j : JobRow) (infra : Infra) (e : Ev) : Prop :=
  (∃ s f, e = Ev.jobWrite s f) ∨ (∃ w, e = Ev.stepW w)
  ∨ e = Ev.mkdirRepoTemp j.id ∨ e = Ev.setTempDir j.id
  ∨ e = Ev.setLanguage infra.detected.language
  ∨ e = Ev.setVersion infra.detected.version
  ∨ e = Ev.setContainerId infra.containerId
  ∨ e = Ev.mkdirArtifacts j.id ∨ e = Ev.removeDirArtifacts j.id
  ∨ (j.temporary = false ∧ e = Ev.removeContainer infra.containerId)

theorem benignEv_jobWrite (j : JobRow) (infra : Infra) (s : Status) (f : Bool) :
    benignEv j infra (Ev.jobWrite s f) :=
  Or.inl ⟨s, f, rfl⟩

theorem benignEv_stepW (j : JobRow) (infra : Infra) (w : StepWrite) :
    benignEv j infra (Ev.stepW w) :=
  Or.inr (Or.inl ⟨w, rfl⟩)

theorem benign_acquire (j : JobRow) (infra : Infra) :
    ∀ e ∈ (acquireStage j infra).1, benignEv j infra e := by
  intro e he
  rcases acquireStage_shape j infra e he with h | h <;> unfold benignEv <;> tauto

theorem benign_detect (j : JobRow) (infra : Infra) :
    ∀ e ∈ detectStage j infra, benignEv j infra e := by
  intro e he
  rcases detectStage_shape j infra e he with h | h <;> unfold benignEv <;> tauto

theorem benign_loop (j : JobRow) (infra : Infra) (steps : List StepRow)
    (envs : List StepEnv) (cancel : CancelObs) :
    ∀ e ∈ (runLoop steps envs cancel).events, benignEv j infra e := by
  intro e he
  unfold runLoop at he
  rcases runStepsFrom_events_shape steps envs (initCells steps) 0 cancel e he with ⟨w, hw⟩ | ⟨s, f, hf⟩
  · rw [hw]; exact benignEv_stepW j infra w
  · rw [hf]; exact benignEv_jobWrite j infra s f

theorem benign_core (j : JobRow) (infra : Infra) :
    ∀ e ∈ (Ev.jobWrite Status.running false :: ((acquireStage j infra).1
        ++ detectStage j infra ++ [Ev.setContainerId infra.containerId])),
      benignEv j infra e := by
  intro e he
  rcases List.mem_cons.mp he with h | h
  · rw [h]; exact benignEv_jobWrite j infra Status.running false
  · rcases List.mem_append.mp h with h | h
    · rcases List.mem_append.mp h with h | h
      · exact benign_acquire j infra e h
      · exact benign_detect j infra e h
    · rcases List.mem_cons.mp h with h | h
      · unfold benignEv; tauto
      · simp at h

/-- Every event an executor run emits is one of the benign constructors:
in particular it is never a removal of the clone dir, and it is a
container removal only for a non-temporary job. -/
theorem runJob_events_cases (j : JobRow) (infra : Infra) (steps : List StepRow)
    (envs : List StepEnv) (cs : List RunnableCase) (cancel : CancelObs) :
    ∀ e ∈ (RunJobWithContext j infra steps envs cs cancel).events,
      benignEv j infra e := by
  intro e hs
  cases h0 : j.cancelled with
  | true =>
    rw [runJob_preflight j infra steps envs cs cancel h0] at hs
    simp at hs
  | false =>
  cases h1 : (acquireStage j infra).2 with
  | false =>
    rw [runJob_acqFail j infra steps envs cs cancel h0 h1] at hs
    rcases List.mem_cons.mp hs with h | h
    · rw [h]; exact benignEv_jobWrite j infra Status.running false
    · exact benign_acquire j infra e h
  | true =>
  by_cases h2 : cancel = CancelObs.preSteps
  · rw [runJob_preSteps j infra steps envs cs cancel h0 h1 h2] at hs
    rcases List.mem_cons.mp hs with h | h
    · rw [h]; exact benignEv_jobWrite j infra Status.running false
    · rcases List.mem_append.mp h with h | h
      · rcases List.mem_append.mp h with h | h
        · exact benign_acquire j infra e h
        · exact benign_detect j infra e h
      · rcases List.mem_cons.mp h with h | h
        · rw [h]; exact benignEv_jobWrite j infra Status.cancelled true
        · simp at h
  · cases h3 : (!infra.pullOk && !infra.fallbackPullOk) with
    | true =>
      rw [runJob_pullFail j infra steps envs cs cancel h0 h1 h2 h3] at hs
      rcases List.mem_cons.mp hs with h | h
      · rw [h]; exact benignEv_jobWrite j infra Status.running false
      · rcases List.mem_append.mp h with h | h
        · exact benign_acquire j infra e h
        · exact benign_detect j infra e h
    | false =>
    cases h4 : infra.createOk with
    | false =>
      rw [runJob_createFail j infra steps envs cs cancel h0 h1 h2 h3 h4] at hs
      rcases List.mem_cons.mp hs with h | h
      · rw [h]; exact benignEv_jobWrite j infra Status.running false
      · rcases List.mem_append.mp h with h | h
        · exact benign_acquire j infra e h
        · exact benign_detect j infra e h
    | true =>
    have hrm : ∀ o : RunOut, (∀ x ∈ o.events, benignEv j infra x) →
        e ∈ (withDeferredRemove j.temporary infra.containerId o).events →
        benignEv j infra e := by
      intro o ho hmem
      rcases (withDeferredRemove_mem _ _ _ _).mp hmem with h | ⟨ht, h⟩
      · exact ho e h
      · unfold benignEv; tauto
    cases h5 : infra.startOk with
    | false =>
      rw [runJob_startFail j infra steps envs cs cancel h0 h1 h2 h3 h4 h5] at hs
      exact hrm _ (benign_core j infra) hs
    | true =>
    cases h6 : (!infra.pullOk && infra.installScriptPresent && !infra.installOk) with
    | true =>
      rw [runJob_installFail j infra steps envs cs cancel h0 h1 h2 h3 h4 h5 h6] at hs
      exact hrm _ (benign_core j infra) hs
    | false =>
    cases h7 : (j.repoName.isSome
        && !(infra.cloneInContainerOk && (strOptEmpty j.branch || infra.checkoutOk))) with
    | true =>
      rw [runJob_cloneFail j infra steps envs cs cancel h0 h1 h2 h3 h4 h5 h6 h7] at hs
      exact hrm _ (benign_core j infra) hs
    | false =>
    rw [runJob_reachLoop j infra steps envs cs cancel h0 h1 h2 h3 h4 h5 h6 h7] at hs
    have hpre : ∀ (y : Ev) (tailEvs : List Ev), (∀ x ∈ tailEvs, benignEv j infra x) →
        y ∈ (Ev.jobWrite Status.running false :: ((acquireStage j infra).1
          ++ detectStage j infra ++ [Ev.setContainerId infra.containerId]
          ++ (runLoop steps envs cancel).events ++ tailEvs)) →
        benignEv j infra y := by
      intro y tailEvs htail h
      rcases List.mem_cons.mp h with h | h
      · rw [h]; exact benignEv_jobWrite j infra Status.running false
      · rcases List.mem_append.mp h with h | h
        · rcases List.mem_append.mp h with h | h
          · rcases List.mem_append.mp h with h | h
            · rcases List.mem_append.mp h with h | h
              · exact benign_acquire j infra y h
              · exact benign_detect j infra y h
            · rcases List.mem_cons.mp h with h | h
              · unfold benignEv; tauto
              · simp at h
          · exact benign_loop j infra steps envs cancel y h
        · exact htail y h
    have htail1 : ∀ x ∈ ([] : List Ev), benignEv j infra x := by
      intro x hx; simp at hx
    have htail2 : ∀ x ∈ [Ev.jobWrite Status.success true], benignEv j infra x := by
      intro x hx
      rcases List.mem_cons.mp hx with h | h
      · rw [h]; exact benignEv_jobWrite j infra Status.success true
      · simp at h
    have htail3 : ∀ x ∈ [Ev.jobWrite Status.success true,
        Ev.mkdirArtifacts j.id, Ev.removeDirArtifacts j.id], benignEv j infra x := by
      intro x hx
      rcases List.mem_cons.mp hx with h | h
      · rw [h]; exact benignEv_jobWrite j infra Status.success true
      · rcases List.mem_cons.mp h with h2 | h2
        · unfold benignEv; tauto
        · rcases List.mem_cons.mp h2 with h3 | h3
          · unfold benignEv; tauto
          · simp at h3
    by_cases hres : (runLoop steps envs cancel).res = RunResult.ok
    · rw [if_neg (by simp [hres])] at hs
      by_cases hcs : cs.isEmpty
      · rw [if_pos hcs] at hs
        refine hrm _ (fun x hx => ?_) hs
        have hx2 : x ∈ (Ev.jobWrite Status.running false :: ((acquireStage j infra).1
            ++ detectStage j infra ++ [Ev.setContainerId infra.containerId]
            ++ (runLoop steps envs cancel).events ++ [Ev.jobWrite Status.success true])) := by
          simpa [List.append_assoc, List.mem_cons, List.mem_append] using hx
        exact hpre x _ htail2 hx2
      · rw [if_neg hcs] at hs
        refine hrm _ (fun x hx => ?_) hs
        have hx2 : x ∈ (Ev.jobWrite Status.running false :: ((acquireStage j infra).1
            ++ detectStage j infra ++ [Ev.setContainerId infra.containerId]
            ++ (runLoop steps envs cancel).events ++ [Ev.jobWrite Status.success true,
              Ev.mkdirArtifacts j.id, Ev.removeDirArtifacts j.id])) := by
          simpa [List.append_assoc, List.mem_cons, List.mem_append] using hx
        exact hpre x _ htail3 hx2
    · rw [if_pos (by simp [hres])] at hs
      refine hrm _ (fun x hx => ?_) hs
      have hx2 : x ∈ (Ev.jobWrite Status.running false :: ((acquireStage j infra).1
          ++ detectStage j infra ++ [Ev.setContainerId infra.containerId]
          ++ (runLoop steps envs cancel).events ++ ([] : List Ev))) := by
        simpa [List.append_assoc, List.mem_cons, List.mem_append] using hx
      exact hpre x _ htail1 hx2

/-- On a non-temporary run that recorded a container id, the deferred
force-remove fires: the removal event is in the trace. -/
theorem runJob_deferred_remove (j : JobRow) (infra : Infra) (steps : List StepRow)
    (envs : List StepEnv) (cs : List RunnableCase) (cancel : CancelObs)
    (ht : j.temporary = false)
    (hc : Ev.setContainerId infra.containerId
      ∈ (RunJobWithContext j infra steps envs cs cancel).events) :
    Ev.removeContainer infra.containerId
      ∈ (RunJobWithContext j infra steps envs cs cancel).events := by
  cases h0 : j.cancelled with
  | true =>
    rw [runJob_preflight j infra steps envs cs cancel h0] at hc
    simp at hc
  | false =>
  cases h1 : (acquireStage j infra).2 with
  | false =>
    rw [runJob_acqFail j infra steps envs cs cancel h0 h1] at hc
    rcases List.mem_cons.mp hc with h | h
    · exact Ev.noConfusion h
    · rcases acquireStage_shape j infra _ h with h2 | h2 <;> exact Ev.noConfusion h2
  | true =>
  by_cases h2 : cancel = CancelObs.preSteps
  · rw [runJob_preSteps j infra steps envs cs cancel h0 h1 h2] at hc
    rcases List.mem_cons.mp hc with h | h
    · exact Ev.noConfusion h
    · rcases List.mem_append.mp h with h | h
      · rcases List.mem_append.mp h with h | h
        · rcases acquireStage_shape j infra _ h with h2 | h2 <;> exact Ev.noConfusion h2
        · rcases detectStage_shape j infra _ h with h2 | h2 <;> exact Ev.noConfusion h2
      · rcases List.mem_cons.mp h with h2 | h2
        · exact Ev.noConfusion h2
        · simp at h2
  · cases h3 : (!infra.pullOk && !infra.fallbackPullOk) with
    | true =>
      rw [runJob_pullFail j infra steps envs cs cancel h0 h1 h2 h3] at hc
      rcases List.mem_cons.mp hc with h | h
      · exact Ev.noConfusion h
      · rcases List.mem_append.mp h with h | h
        · rcases acquireStage_shape j infra _ h with h2 | h2 <;> exact Ev.noConfusion h2
        · rcases detectStage_shape j infra _ h with h2 | h2 <;> exact Ev.noConfusion h2
    | false =>
    cases h4 : infra.createOk with
    | false =>
      rw [runJob_createFail j infra steps envs cs cancel h0 h1 h2 h3 h4] at hc
      rcases List.mem_cons.mp hc with h | h
      · exact Ev.noConfusion h
      · rcases List.mem_append.mp h with h | h
        · rcases acquireStage_shape j infra _ h with h2 | h2 <;> exact Ev.noConfusion h2
        · rcases detectStage_shape j infra _ h with h2 | h2 <;> exact Ev.noConfusion h2
    | true =>
    have hrm : ∀ o : RunOut, Ev.removeContainer infra.containerId
        ∈ (withDeferredRemove j.temporary infra.containerId o).events :=
      fun o => (withDeferredRemove_mem _ _ _ _).mpr (Or.inr ⟨ht, rfl⟩)
    cases h5 : infra.startOk with
    | false =>
      rw [runJob_startFail j infra steps envs cs cancel h0 h1 h2 h3 h4 h5]
      exact hrm _
    | true =>
    cases h6 : (!infra.pullOk && infra.installScriptPresent && !infra.installOk) with
    | true =>
      rw [runJob_installFail j infra steps envs cs cancel h0 h1 h2 h3 h4 h5 h6]
      exact hrm _
    | false =>
    cases h7 : (j.repoName.isSome
        && !(infra.cloneInContainerOk && (strOptEmpty j.branch || infra.checkoutOk))) with
    | true =>
      rw [runJob_cloneFail j infra steps envs cs cancel h0 h1 h2 h3 h4 h5 h6 h7]
      exact hrm _
    | false =>
    rw [runJob_reachLoop j infra steps envs cs cancel h0 h1 h2 h3 h4 h5 h6 h7]
    split
    · exact hrm _
    · split
      · exact hrm _
      · exact hrm _

/-- C8 counterexample: a plain non-temporary cloned job creates the clone
dir `{tmp}/rapidflow-repo-1` (worker.go:413-414) but no exit path of the
run removes it: the only defer `RunJobWithContext` registers is the
`ContainerRemove` at worker.go:596, the two helpers that would issue the
`os.RemoveAll` run only from the stop-pipeline command
(`CleanupJobResources`, part_009:824) or never (`cleanupTemporaryResources`
has no caller), and for a non-temporary job even stop-pipeline gets an
empty `temp_dir` because the column is stored at worker.go:421 for
temporary jobs only.  So the claimed best-effort removal of the
cloned-repo directory on cleanup does not happen. -/
theorem c8_counterexample :
    Ev.mkdirRepoTemp 1
        ∈ (RunJobWithContext sampleJob sampleInfra [] [] [] CancelObs.never).events
    ∧ Ev.removeDirRepoTemp 1
        ∉ (RunJobWithContext sampleJob sampleInfra [] [] [] CancelObs.never).events := by
  constructor <;> decide

/-- C8 (amended): for a non-temporary job that recorded a container id the
deferred force-remove of the container fires on every exit path; for a
temporary job no container removal is ever emitted by the run, and it is
the stop-pipeline sweep that removes the stored container id and the
stored temp directory; but the temporary directory created for the cloned
repository is removed on no exit path of the run itself — the executor
never issues its removal at all. -/
theorem c8_cleanup_amended (j : JobRow) (infra : Infra) (steps : List StepRow)
    (envs : List StepEnv) (cs : List RunnableCase) (cancel : CancelObs) :
    (j.temporary = false →
      Ev.setContainerId infra.containerId
          ∈ (RunJobWithContext j infra steps envs cs cancel).events →
      Ev.removeContainer infra.containerId
          ∈ (RunJobWithContext j infra steps envs cs cancel).events)
    ∧ (j.temporary = true →
      ∀ cid, Ev.removeContainer cid
          ∉ (RunJobWithContext j infra steps envs cs cancel).events)
    ∧ (∀ k, Ev.removeDirRepoTemp k
          ∉ (RunJobWithContext j infra steps envs cs cancel).events)
    ∧ (∀ (jdb : JobDb) (cid : String), jdb.containerId = some cid → cid ≠ "" →
        SweepEv.removeContainer cid ∈ stopPipelineJob jdb)
    ∧ (∀ (jdb : JobDb) (d : String), jdb.tempDir = some d → d ≠ "" →
        SweepEv.removeDirPath d ∈ stopPipelineJob jdb) := by
  refine ⟨fun ht hc => runJob_deferred_remove j infra steps envs cs cancel ht hc,
    fun ht cid hmem => ?_, fun k hmem => ?_,
    fun jdb cid hcid hne => ?_, fun jdb d hd hne => ?_⟩
  · have hb := runJob_events_cases j infra steps envs cs cancel _ hmem
    unfold benignEv at hb
    rcases hb with ⟨s, f, h⟩ | ⟨w, h⟩ | h | h | h | h | h | h | h | ⟨hf, h⟩
    any_goals exact Ev.noConfusion h
    rw [ht] at hf
    exact Bool.noConfusion hf
  · have hb := runJob_events_cases j infra steps envs cs cancel _ hmem
    unfold benignEv at hb
    rcases hb with ⟨s, f, h⟩ | ⟨w, h⟩ | h | h | h | h | h | h | h | ⟨hf, h⟩
    all_goals exact Ev.noConfusion h
  · unfold stopPipelineJob CleanupJobResources
    rw [hcid]
    simp [hne]
  · unfold stopPipelineJob CleanupJobResources
    rw [hd]
    simp [hne]

/-- A temporary variant of the sample job, for the temporary conjunct of
the amended C8. -/
def sampleJobTemp : JobRow :=
  { sampleJob with temporary := true }

/-- C8 amended, witnessed: the concrete non-temporary run records the
container id and removes container `c1`; the temporary variant never
emits a container removal; neither run removes the clone dir; and the
stop-pipeline sweep on the stored row removes container `c1` and the
stored temp directory. -/
theorem c8_cleanup_amended_witness :
    Ev.removeContainer "c1"
        ∈ (RunJobWithContext sampleJob sampleInfra [] [] [] CancelObs.never).events
    ∧ Ev.removeContainer "c1"
        ∉ (RunJobWithContext sampleJobTemp sampleInfra [] [] [] CancelObs.never).events
    ∧ Ev.removeDirRepoTemp 1
        ∉ (RunJobWithContext sampleJob sampleInfra [] [] [] CancelObs.never).events
    ∧ SweepEv.removeContainer "c1" ∈ stopPipelineJob sampleJobDbRunnables
    ∧ SweepEv.removeDirPath "/tmp/rapidflow-repo-1" ∈ stopPipelineJob sampleJobDbRunnables :=
  ⟨(c8_cleanup_amended sampleJob sampleInfra [] [] [] CancelObs.never).1
      (by decide) (by decide),
   (c8_cleanup_amended sampleJobTemp sampleInfra [] [] [] CancelObs.never).2.1
      (by decide) "c1",
   (c8_cleanup_amended sampleJob sampleInfra [] [] [] CancelObs.never).2.2.1 1,
   (c8_cleanup_amended sampleJob sampleInfra [] [] [] CancelObs.never).2.2.2.1
      sampleJobDbRunnables "c1" rfl (by decide),
   (c8_cleanup_amended sampleJob sampleInfra [] [] [] CancelObs.never).2.2.2.2
      sampleJobDbRunnables "/tmp/rapidflow-repo-1" rfl (by decide)⟩

end Rapidflow
